import Mathlib

/-!
Verification development for the Match and Bloom match-3 engine.

This file gives a shallow embedding of the core rules engine of the
repository: the grid data model and geometry helpers from
src/types/game.types.ts, the match detection (line scans plus flood
fill), gravity, refill and board generation from the final iteration of
useMatch3Engine, and the zustand store actions (score, contribution,
moves, win and loss checks) from the final persisted gameStore.  The
engine hook and the store are embedded as pure functions over an
explicit EngineState value; randomness (element colors drawn by
getRandomColor) is modelled by an explicit draw stream passed as a
function, and fresh element ids by a counter, so every definition is
executable.  Waits, haptics, sound and particle emission are
presentation effects with no bearing on engine state and are not
modelled; the movements map returned by applyGravity is unused by the
engine and is omitted.  JavaScript numbers holding integral game
quantities are modelled by naturals, and the teamProgress fraction by a
rational.
-/

namespace MatchBloom

/-- Grid side length, from game.types.ts. -/
def GRID_SIZE : ℕ := 8

/-- Total cell count, from game.types.ts. -/
def TOTAL_CELLS : ℕ := GRID_SIZE * GRID_SIZE

/-- Minimum qualifying run length, from game.types.ts. -/
def MIN_MATCH : ℕ := 3

/-- The four element kinds (water, sun, leaf, bloom) are coded 0..3;
ALL_ELEMENT_TYPES from game.types.ts. -/
def ALL_ELEMENT_TYPES : List ℕ := [0, 1, 2, 3]

/-- One grid cell, mirroring the Element interface of game.types.ts.
Ids are naturals (the source uses generated strings whose only role is
uniqueness). -/
structure Element where
  id : ℕ
  color : ℕ
  index : ℕ
  isMatched : Bool
  isSelected : Bool
deriving DecidableEq, Repr

instance : Inhabited Element := ⟨⟨0, 0, 0, false, false⟩⟩

/-- The board, a flat row-major sequence of cells. -/
abbrev Grid := List Element

/-- Row of a flat index, as in indexToPosition. -/
def rowOf (i : ℕ) : ℕ := i / GRID_SIZE

/-- Column of a flat index, as in indexToPosition. -/
def colOf (i : ℕ) : ℕ := i % GRID_SIZE

/-- positionToIndex from game.types.ts. -/
def positionToIndex (row col : ℕ) : ℕ := row * GRID_SIZE + col

/-- isValidIndex from game.types.ts (indices are naturals here, so only
the upper bound is checked). -/
def isValidIndex (i : ℕ) : Bool := i < TOTAL_CELLS

/-- areAdjacent from game.types.ts: one step in a row or a column, not
both. -/
def areAdjacent (a b : ℕ) : Bool :=
  let rowDiff := max (rowOf a) (rowOf b) - min (rowOf a) (rowOf b)
  let colDiff := max (colOf a) (colOf b) - min (colOf a) (colOf b)
  (rowDiff = 1 && colDiff = 0) || (rowDiff = 0 && colDiff = 1)

/-- Color of the cell at a flat index. -/
def colorAt (g : Grid) (i : ℕ) : ℕ := (g.getD i default).color

/-- The up, down, left, right neighbor list built by floodFill in
useMatch3Engine (out-of-range slots are dropped, as the source filters
out its -1 placeholders). -/
def neighborsOf (c : ℕ) : List ℕ :=
  (if 0 < rowOf c then [positionToIndex (rowOf c - 1) (colOf c)] else []) ++
  (if rowOf c < GRID_SIZE - 1 then [positionToIndex (rowOf c + 1) (colOf c)] else []) ++
  (if 0 < colOf c then [positionToIndex (rowOf c) (colOf c - 1)] else []) ++
  (if colOf c < GRID_SIZE - 1 then [positionToIndex (rowOf c) (colOf c + 1)] else [])

/-!
Line scans.  findHorizontalMatches and findVerticalMatches in
useMatch3Engine are the same maximal-run scan applied along each row
and each column respectively; lineScanGo embeds that scan once over an
abstract line of GRID_SIZE colors, and the two finders instantiate it
with the row-major and column-major index maps.  The JavaScript Sets
are lists read up to membership.
-/

/-- One row or column scan: state is the current run start, run color,
run length and the accumulated marked positions, exactly as in the
source loop; k counts the positions still to visit. -/
def lineScanGo (c : ℕ → ℕ) : ℕ → ℕ → ℕ → ℕ → ℕ → List ℕ → List ℕ
  | 0, _, ms, _, ml, acc =>
      if MIN_MATCH ≤ ml then acc ++ List.range' ms (GRID_SIZE - ms) else acc
  | k + 1, col, ms, mc, ml, acc =>
      if c col = mc then
        lineScanGo c k (col + 1) ms mc (ml + 1) acc
      else if MIN_MATCH ≤ ml then
        lineScanGo c k (col + 1) col (c col) 1 (acc ++ List.range' ms (col - ms))
      else
        lineScanGo c k (col + 1) col (c col) 1 acc

/-- Marked positions of one line of colors. -/
def lineScan (c : ℕ → ℕ) : List ℕ :=
  lineScanGo c (GRID_SIZE - 1) 1 0 (c 0) 1 []

/-- findHorizontalMatches from useMatch3Engine. -/
def findHorizontalMatches (g : Grid) : List ℕ :=
  (List.range GRID_SIZE).flatMap fun row =>
    (lineScan fun col => colorAt g (positionToIndex row col)).map fun col =>
      positionToIndex row col

/-- findVerticalMatches from useMatch3Engine. -/
def findVerticalMatches (g : Grid) : List ℕ :=
  (List.range GRID_SIZE).flatMap fun col =>
    (lineScan fun row => colorAt g (positionToIndex row col)).map fun row =>
      positionToIndex row col

/-- The set of raw-matched indices: union of the two line scans, as
detectAllMatches forms it. -/
def rawMatched (g : Grid) : List ℕ :=
  findHorizontalMatches g ++ findVerticalMatches g

/-- Breadth-first flood fill worklist from useMatch3Engine, with
explicit fuel (the source loop terminates because visited grows; 1024
exceeds the bound on possible queue pops for any on-board start). -/
def floodFillAux (g : Grid) (targetColor : ℕ) :
    ℕ → List ℕ → List ℕ → List ℕ
  | 0, _, _ => []
  | _ + 1, [], _ => []
  | fuel + 1, current :: queue, visited =>
      if current ∈ visited then
        floodFillAux g targetColor fuel queue visited
      else
        let visited' := current :: visited
        if colorAt g current ≠ targetColor then
          floodFillAux g targetColor fuel queue visited'
        else
          current ::
            floodFillAux g targetColor fuel
              (queue ++ (neighborsOf current).filter (fun n => n ∉ visited'))
              visited'

/-- floodFill from useMatch3Engine: all cells of the start's color
connected to the start through 4-neighbor steps over same-color cells. -/
def floodFill (g : Grid) (startIndex : ℕ) : List ℕ :=
  floodFillAux g (colorAt g startIndex) 1024 [startIndex] []

/-- MatchResult from game.types.ts. -/
structure MatchResult where
  matchedIndices : List ℕ
  count : ℕ
  isSpecial : Bool
deriving DecidableEq, Repr

/-- The grouping loop of detectAllMatches: walk the raw-matched list,
flood fill from each unprocessed index, keep the raw-matched cells of
the flooded region as one group when it has at least MIN_MATCH cells. -/
def detectLoop (g : Grid) (allMatched : List ℕ) :
    List ℕ → List ℕ → List MatchResult → List MatchResult
  | [], _, results => results
  | idx :: rest, processed, results =>
      if idx ∈ processed then detectLoop g allMatched rest processed results
      else
        let connected := floodFill g idx
        let matchedConnected := connected.filter (· ∈ allMatched)
        let processed' := processed ++ matchedConnected
        if MIN_MATCH ≤ matchedConnected.length then
          detectLoop g allMatched rest processed'
            (results ++
              [⟨matchedConnected, matchedConnected.length,
                decide (4 ≤ matchedConnected.length)⟩])
        else detectLoop g allMatched rest processed' results

/-- detectAllMatches from useMatch3Engine. -/
def detectAllMatches (g : Grid) : List MatchResult :=
  let allMatched := rawMatched g
  if allMatched.isEmpty then []
  else detectLoop g allMatched allMatched [] []

/-!
Gravity and refill.
-/

/-- The trailing null-fill loop of applyGravity: clears rows
writePos, writePos - 1, ..., 0 of one column (k is writePos + 1). -/
def nullFillLoop (col : ℕ) : ℕ → List (Option Element) → List (Option Element)
  | 0, g => g
  | k + 1, g => nullFillLoop col k (g.set (positionToIndex k col) none)

/-- The bottom-to-top scan of one column in applyGravity; rowsLeft
counts the rows still to visit (the current row is rowsLeft - 1 ... the
scan starts at the bottom row), writePos is the next slot to compact
into.  writePos is an integer because the source lets it reach -1 when
a full column survives. -/
def gravityScanLoop (col : ℕ) :
    ℕ → ℤ → List (Option Element) → List (Option Element) × ℤ
  | 0, writePos, g => (g, writePos)
  | rowsLeft + 1, writePos, g =>
      let row := rowsLeft
      let readIndex := positionToIndex row col
      match g.getD readIndex none with
      | some e =>
          if e.isMatched then gravityScanLoop col rowsLeft writePos g
          else
            let writeIndex := positionToIndex writePos.toNat col
            let g' :=
              if writeIndex ≠ readIndex then
                (g.set writeIndex (some { e with index := writeIndex })).set readIndex none
              else g
            gravityScanLoop col rowsLeft (writePos - 1) g'
      | none => gravityScanLoop col rowsLeft writePos g

/-- Process one column: compacting scan, then null-fill of the vacated
top slots. -/
def processColumn (col : ℕ) (g : List (Option Element)) : List (Option Element) :=
  let p := gravityScanLoop col GRID_SIZE (GRID_SIZE - 1 : ℤ) g
  nullFillLoop col (p.2 + 1).toNat p.1

/-- applyGravity from useMatch3Engine (the unused movements map is not
modelled). -/
def applyGravity (g : Grid) : List (Option Element) :=
  (List.range GRID_SIZE).foldl (fun acc col => processColumn col acc) (g.map some)

/-- getRandomColor from useMatch3Engine, fed by the draw stream: one
draw selects one entry of ALL_ELEMENT_TYPES. -/
def getRandomColor (draws : ℕ → ℕ) (pos : ℕ) : ℕ :=
  ALL_ELEMENT_TYPES.getD (draws pos % ALL_ELEMENT_TYPES.length) 0

/-- createElement from useMatch3Engine with an explicit color. -/
def mkElement (id index color : ℕ) : Element :=
  ⟨id, color, index, false, false⟩

/-- refillEmptyCells from useMatch3Engine: walk the grid in index
order, replacing every null slot by a fresh random element; returns the
grid together with the advanced draw position and id counter. -/
def refillGo (draws : ℕ → ℕ) :
    List (Option Element) → ℕ → ℕ → ℕ → Grid × ℕ × ℕ
  | [], _, pos, id => ([], pos, id)
  | some e :: t, i, pos, id =>
      let r := refillGo draws t (i + 1) pos id
      (e :: r.1, r.2)
  | none :: t, i, pos, id =>
      let r := refillGo draws t (i + 1) (pos + 1) (id + 1)
      (mkElement id i (getRandomColor draws pos) :: r.1, r.2)

/-- refillEmptyCells entry point. -/
def refillEmptyCells (draws : ℕ → ℕ) (g : List (Option Element)) (pos id : ℕ) :
    Grid × ℕ × ℕ :=
  refillGo draws g 0 pos id

/-!
Board generation.
-/

/-- wouldCreateMatch from useMatch3Engine, over a partially built grid
(null slots make the optional-chained color reads fail, as in the
source). -/
def wouldCreateMatch (g : List (Option Element)) (index color : ℕ) : Bool :=
  let row := index / GRID_SIZE
  let col := index % GRID_SIZE
  (decide (2 ≤ col) &&
    ((g.getD (index - 1) none).elim false (fun e => e.color = color) &&
     (g.getD (index - 2) none).elim false (fun e => e.color = color))) ||
  (decide (2 ≤ row) &&
    ((g.getD (index - GRID_SIZE) none).elim false (fun e => e.color = color) &&
     (g.getD (index - 2 * GRID_SIZE) none).elim false (fun e => e.color = color)))

/-- The retry loop of generateInitialGrid: redraw while the candidate
color would complete a match, for at most maxAttempts (20) further
attempts, then accept the last draw. -/
def pickColorLoop (draws : ℕ → ℕ) (g : List (Option Element)) (i : ℕ) :
    ℕ → ℕ → ℕ → ℕ × ℕ
  | 0, color, pos => (color, pos)
  | attemptsLeft + 1, color, pos =>
      if wouldCreateMatch g i color then
        pickColorLoop draws g i attemptsLeft (getRandomColor draws pos) (pos + 1)
      else (color, pos)

/-- Cell kinds a level layout can request, from the level data types. -/
inductive CellType | RANDOM | ROCK | LOCK
deriving DecidableEq, Repr

/-- generateInitialGrid from the final useMatch3Engine, over an
optional level layout: ROCK and LOCK slots are placeholder random
elements with no avoid check (the source marks them TODO), RANDOM
slots retry against wouldCreateMatch. -/
def generateGo (draws : ℕ → ℕ) (layout : Option (ℕ → ℕ → CellType)) :
    ℕ → List (Option Element) → ℕ → ℕ → List (Option Element) × ℕ × ℕ
  | 0, g, pos, id => (g, pos, id)
  | cellsLeft + 1, g, pos, id =>
      let i := TOTAL_CELLS - (cellsLeft + 1)
      let cellType := (layout.map fun f => f (i / GRID_SIZE) (i % GRID_SIZE)).getD .RANDOM
      match cellType with
      | .RANDOM =>
          let p := pickColorLoop draws g i 20 (getRandomColor draws pos) (pos + 1)
          generateGo draws layout cellsLeft
            (g.set i (some (mkElement id i p.1))) p.2 (id + 1)
      | _ =>
          generateGo draws layout cellsLeft
            (g.set i (some (mkElement id i (getRandomColor draws pos)))) (pos + 1) (id + 1)

/-- generateInitialGrid: fill all TOTAL_CELLS slots in index order;
returns the grid (nulls stripped, as the source casts away nullability)
with the advanced draw position and id counter. -/
def generateInitialGrid (draws : ℕ → ℕ) (layout : Option (ℕ → ℕ → CellType))
    (pos id : ℕ) : Grid × ℕ × ℕ :=
  let r := generateGo draws layout TOTAL_CELLS (List.replicate TOTAL_CELLS none) pos id
  (r.1.filterMap (fun o => o), r.2)

/-!
Engine state and the store actions of the final persisted gameStore.
-/

/-- GamePhase from game.types.ts. -/
inductive Phase | IDLE | SWAPPING | MATCHING | FALLING | REFILLING
deriving DecidableEq, Repr

/-- LevelState from game.types.ts. -/
inductive LevelState | PLAYING | WON | LOST
deriving DecidableEq, Repr

/-- The store state threaded through the engine: the game fields of the
zustand store together with the per-level target score
(currentLevelConfig.targetProgress), the draw-stream cursor and the
fresh-id counter that make random element creation explicit. -/
structure EngineState where
  grid : Grid
  phase : Phase
  selectedIndex : ℤ
  score : ℕ
  combo : ℕ
  highScore : ℕ
  teamProgress : ℚ
  isLevelComplete : Bool
  moves : ℕ
  maxMoves : ℕ
  levelState : LevelState
  targetScore : ℕ
  drawPos : ℕ
  nextId : ℕ
deriving DecidableEq, Repr

/-- setGrid store action. -/
def setGrid (g : Grid) (s : EngineState) : EngineState := { s with grid := g }

/-- setPhase store action. -/
def setPhase (p : Phase) (s : EngineState) : EngineState := { s with phase := p }

/-- setSelectedIndex store action. -/
def setSelectedIndex (i : ℤ) (s : EngineState) : EngineState :=
  { s with selectedIndex := i }

/-- addScore store action: bumps score and the running high score. -/
def addScore (points : ℕ) (s : EngineState) : EngineState :=
  let newScore := s.score + points
  { s with score := newScore, highScore := max s.highScore newScore }

/-- incrementCombo store action. -/
def incrementCombo (s : EngineState) : EngineState := { s with combo := s.combo + 1 }

/-- resetCombo store action. -/
def resetCombo (s : EngineState) : EngineState := { s with combo := 0 }

/-- addContribution store action of the final gameStore: a no-op once
the level is complete, otherwise adds the points to the score, recomputes
teamProgress as min(newScore / targetScore, 1) and latches completion
when progress reaches 1. -/
def addContribution (points : ℕ) (s : EngineState) : EngineState :=
  if s.isLevelComplete then s
  else
    let newScore := s.score + points
    let newProgress : ℚ := min ((newScore : ℚ) / (s.targetScore : ℚ)) 1
    { s with
      score := newScore
      teamProgress := newProgress
      isLevelComplete := decide (1 ≤ newProgress)
      highScore := max s.highScore newScore }

/-- checkWinLossCondition store action: only acts while PLAYING; a full
progress bar wins (pre-empting the loss check), zero moves with an
unfilled bar loses. -/
def checkWinLossCondition (s : EngineState) : EngineState :=
  if s.levelState ≠ LevelState.PLAYING then s
  else if 1 ≤ s.teamProgress then
    { s with levelState := LevelState.WON, isLevelComplete := true }
  else if s.moves = 0 ∧ s.teamProgress < 1 then
    { s with levelState := LevelState.LOST }
  else s

/-- decrementMoves store action: only acts while PLAYING; clamps at
zero (natural subtraction matches the source's max(moves - 1, 0)) and
then runs the win and loss check. -/
def decrementMoves (s : EngineState) : EngineState :=
  if s.levelState ≠ LevelState.PLAYING then s
  else checkWinLossCondition { s with moves := s.moves - 1 }

/-- addMoves store action: adds the count and unconditionally resumes
PLAYING. -/
def addMoves (count : ℕ) (s : EngineState) : EngineState :=
  { s with moves := s.moves + count, levelState := LevelState.PLAYING }

/-!
The engine operations of the final useMatch3Engine, as pure state
transitions.  The isProcessing reentrancy latch and the animation waits
are presentation-side concerns: here one call runs the whole swap and
cascade to completion, which is the source behavior seen from the
store.
-/

/-- The grid exchange in performSwap: each moved cell keeps its fields
and takes the index of its new slot. -/
def swapGrid (g : Grid) (fromIndex toIndex : ℕ) : Grid :=
  let temp := { g.getD fromIndex default with index := toIndex }
  let g' := g.set fromIndex { g.getD toIndex default with index := fromIndex }
  g'.set toIndex temp

/-- The state just after performSwap has applied the exchange: phase
SWAPPING, selection cleared, grid swapped. -/
def swapPrepared (s : EngineState) (fromIndex toIndex : ℕ) : EngineState :=
  setGrid (swapGrid s.grid fromIndex toIndex)
    (setSelectedIndex (-1) (setPhase Phase.SWAPPING s))

/-- The state performSwap hands to the cascade once the swap has been
accepted as match-producing: one move is consumed first. -/
def swapAccepted (s : EngineState) (fromIndex toIndex : ℕ) : EngineState :=
  decrementMoves (swapPrepared s fromIndex toIndex)

/-- The matched-cell total of one cascade iteration: all group members,
deduplicated as the source's Set does. -/
def cascadeMatchedIndices (s : EngineState) : List ℕ :=
  ((detectAllMatches s.grid).flatMap (·.matchedIndices)).eraseDups

/-- The first half of one cascade iteration: mark the matched cells,
then add score and contribution with the cascade-depth multiplier, bump
the combo and check win and loss. -/
def cascadeScoreState (s : EngineState) (cascadeCount : ℕ) : EngineState :=
  let matchedIndices := cascadeMatchedIndices s
  let s := setGrid
    (s.grid.map fun e => { e with isMatched := matchedIndices.contains e.index }) s
  let totalMatched := matchedIndices.length
  let baseScore := totalMatched * 10
  let comboMultiplier := cascadeCount + 1
  let finalScore := baseScore * comboMultiplier
  let s := addScore finalScore s
  let s := addContribution finalScore s
  let s := incrementCombo s
  checkWinLossCondition s

/-- One iteration body of the processCascade loop (the branch taken
when detection found groups): score and bookkeeping, then gravity and
refill. -/
def cascadeStep (draws : ℕ → ℕ) (s : EngineState) (cascadeCount : ℕ) : EngineState :=
  let s := cascadeScoreState s cascadeCount
  let s := setPhase Phase.FALLING s
  let fallen := applyGravity s.grid
  let s := setPhase Phase.REFILLING s
  let r := refillEmptyCells draws fallen s.drawPos s.nextId
  setGrid r.1 { s with drawPos := r.2.1, nextId := r.2.2 }

/-- processCascade from the final useMatch3Engine, with fuel for the
unbounded cascade loop; returns the settled state and the final cascade
step count, or none when the fuel runs out before the board settles. -/
def processCascadeAux (draws : ℕ → ℕ) :
    ℕ → EngineState → ℕ → Option (EngineState × ℕ)
  | 0, _, _ => none
  | fuel + 1, s, cascadeCount =>
      let s := setPhase Phase.MATCHING s
      if (detectAllMatches s.grid).isEmpty then
        let s := if cascadeCount = 0 then resetCombo s else s
        some (setPhase Phase.IDLE s, cascadeCount)
      else
        processCascadeAux draws fuel (cascadeStep draws s cascadeCount) (cascadeCount + 1)

/-- processCascade entry point: state only. -/
def processCascade (draws : ℕ → ℕ) (fuel : ℕ) (s : EngineState) :
    Option EngineState :=
  (processCascadeAux draws fuel s 0).map (·.1)

/-- performSwap from the final useMatch3Engine: apply the exchange; if
the swapped board has no match, exchange back and return to IDLE with
nothing consumed; otherwise consume one move and run the cascade. -/
def performSwap (draws : ℕ → ℕ) (fuel : ℕ) (s : EngineState)
    (fromIndex toIndex : ℕ) : Option EngineState :=
  let s1 := swapPrepared s fromIndex toIndex
  if (detectAllMatches s1.grid).isEmpty then
    let s2 := setGrid (swapGrid s1.grid fromIndex toIndex) (setPhase Phase.SWAPPING s1)
    some (setPhase Phase.IDLE s2)
  else
    processCascade draws fuel (decrementMoves s1)

/-- isValidSwap from useMatch3Engine. -/
def isValidSwap (a b : ℕ) : Bool := isValidIndex a && isValidIndex b && areAdjacent a b

/-- handleElementTap from the final useMatch3Engine: rejected outside
IDLE phase or outside a PLAYING level outcome, otherwise select,
deselect, swap with an adjacent selection, or move the selection. -/
def handleElementTap (draws : ℕ → ℕ) (fuel : ℕ) (s : EngineState) (index : ℕ) :
    Option EngineState :=
  if s.phase ≠ Phase.IDLE ∨ s.levelState ≠ LevelState.PLAYING then some s
  else if ¬ isValidIndex index then some s
  else if s.selectedIndex = -1 then some (setSelectedIndex index s)
  else if s.selectedIndex = (index : ℤ) then some (setSelectedIndex (-1) s)
  else if areAdjacent s.selectedIndex.toNat index then
    performSwap draws fuel s s.selectedIndex.toNat index
  else some (setSelectedIndex index s)

/-- Swipe directions. -/
inductive SwipeDir | up | down | left | right
deriving DecidableEq, Repr

/-- getSwipeTargetIndex from the final useMatch3Engine: clamped
one-step move; none when clamping leaves the position unchanged. -/
def getSwipeTargetIndex (fromIndex : ℕ) (dir : SwipeDir) : Option ℕ :=
  let row := rowOf fromIndex
  let col := colOf fromIndex
  let target : ℕ × ℕ :=
    match dir with
    | .up => (row - 1, col)
    | .down => (min (GRID_SIZE - 1) (row + 1), col)
    | .left => (row, col - 1)
    | .right => (row, min (GRID_SIZE - 1) (col + 1))
  if target.1 ≠ row ∨ target.2 ≠ col then some (positionToIndex target.1 target.2)
  else none

/-- handleSwipe from the final useMatch3Engine: same guards as the tap
handler, then a direct swap with the neighbor in the swipe direction. -/
def handleSwipe (draws : ℕ → ℕ) (fuel : ℕ) (s : EngineState) (fromIndex : ℕ)
    (dir : SwipeDir) : Option EngineState :=
  if s.phase ≠ Phase.IDLE ∨ s.levelState ≠ LevelState.PLAYING then some s
  else if ¬ isValidIndex fromIndex then some s
  else
    match getSwipeTargetIndex fromIndex dir with
    | some target =>
        if isValidSwap fromIndex target then performSwap draws fuel s fromIndex target
        else some s
    | none => some s

/-!
Claim-level predicates.
-/

/-- A grid is well formed when each cell's index field names its slot;
every grid the engine builds has this shape. -/
def WellFormedGrid (g : Grid) : Prop :=
  ∀ i, i < TOTAL_CELLS → (g.getD i default).index = i

/-- The store's progress bookkeeping invariant: teamProgress is the
clamped score fraction and the completion latch agrees with the score
having reached the target.  It holds at level start and is preserved by
every cascade step. -/
def ProgressInv (s : EngineState) : Prop :=
  s.teamProgress = min ((s.score : ℚ) / (s.targetScore : ℚ)) 1 ∧
  (s.isLevelComplete = true ↔ (s.targetScore : ℚ) ≤ (s.score : ℚ))

/-- Three equal colors ending at position t of a line. -/
def tripleAt (c : ℕ → ℕ) (t : ℕ) : Prop :=
  2 ≤ t ∧ c t = c (t - 1) ∧ c (t - 1) = c (t - 2)

/-- A horizontal three-in-a-row ending at flat index j. -/
def HTriple (g : Grid) (j : ℕ) : Prop :=
  2 ≤ colOf j ∧ colorAt g j = colorAt g (j - 1) ∧
  colorAt g (j - 1) = colorAt g (j - 2)

/-- A vertical three-in-a-row ending at flat index j. -/
def VTriple (g : Grid) (j : ℕ) : Prop :=
  2 ≤ rowOf j ∧ colorAt g j = colorAt g (j - GRID_SIZE) ∧
  colorAt g (j - GRID_SIZE) = colorAt g (j - 2 * GRID_SIZE)

/-- One same-kind 4-neighbor step, the move relation of the source
flood fill. -/
def SameKindStep (g : Grid) (c : ℕ) (a b : ℕ) : Prop :=
  b ∈ neighborsOf a ∧ colorAt g b = c

/-- Same-kind 4-directional connectivity. -/
def SameKindReach (g : Grid) (c : ℕ) (a b : ℕ) : Prop :=
  Relation.ReflTransGen (SameKindStep g c) a b

/-- A same-kind step that avoids a visited set; the move relation for
reasoning about the flood fill worklist mid-run. -/
def StepC (g : Grid) (c : ℕ) (V : List ℕ) (a b : ℕ) : Prop :=
  b ∈ neighborsOf a ∧ colorAt g b = c ∧ b ∉ V

/-- A same-kind path from q to i all of whose cells (q included) avoid
the visited set. -/
def PathIn (g : Grid) (c : ℕ) (V : List ℕ) (q i : ℕ) : Prop :=
  q ∉ V ∧ colorAt g q = c ∧ Relation.ReflTransGen (StepC g c V) q i

/-- Number of on-board cells not yet visited; the flood fill fuel
measure. -/
def unvis (V : List ℕ) : ℕ :=
  ((Finset.range TOTAL_CELLS).filter (fun x => x ∉ V)).card

/-- Modelled from the spec: the connected-component merge of §4.3 as
the spec words it, a flood fill restricted to cells of the same kind
that are ALSO raw-matched (the repository's floodFill instead ranges
over all same-kind cells).  Sixty-four closure rounds saturate any
component of the 64-cell board. -/
def specRawCloseOnce (g : Grid) (c : ℕ) (s : List ℕ) : List ℕ :=
  (s ++ (s.flatMap neighborsOf).filter fun n =>
    decide (colorAt g n = c) && decide (n ∈ rawMatched g)).eraseDups

/-- Modelled from the spec: all cells the spec's restricted flood fill
collects from a raw-matched start. -/
def specRawComponent (g : Grid) (start : ℕ) : List ℕ :=
  (specRawCloseOnce g (colorAt g start))^[64] [start]

/-- The cells of one column of a board, top to bottom. -/
def columnCells (g : Grid) (col : ℕ) : List Element :=
  (List.range GRID_SIZE).map fun r => g.getD (positionToIndex r col) default

/-- The column cells that survive gravity: those not flagged matched,
in top-to-bottom order. -/
def survivorsOf (g : Grid) (col : ℕ) : List Element :=
  (columnCells g col).filter fun e => !e.isMatched

/-!
Concrete fixtures used by witnesses, counterexamples and failing-input
evaluations.  B1 is a settled checker-style board (no run of three
anywhere) with one off-pattern cell at row 6, column 3, so that
swapping cells 59 and 51 creates exactly one horizontal three-run on
the bottom row; wdraws lists the refill colors consumed by the two
cascades exercised in the proofs, each chosen to keep the refilled
board settled.
-/

/-- Color pattern of the fixture board. -/
def b1colors (i : ℕ) : ℕ :=
  let r := i / 8
  let c := i % 8
  if r = 6 && c = 3 then 2 else c % 2 + 2 * (r % 2)

/-- The fixture board: ids and index fields both equal the slot. -/
def B1 : Grid := (List.range 64).map fun i => ⟨i, b1colors i, i, false, false⟩

/-- Draw stream for the fixture cascades. -/
def wdraws (n : ℕ) : ℕ := [3, 2, 3, 0, 1, 3].getD n 0

/-- The fixture board with its bottom-row run marked for removal, as
the cascade marks it before gravity. -/
def markedB1 : Grid :=
  B1.map fun e =>
    if e.index = 58 || e.index = 59 || e.index = 60 then
      { e with isMatched := true }
    else e

/-- Fresh level-start state over the fixture board (level 1 move and
target budget from the level data). -/
def s0 : EngineState :=
  { grid := B1, phase := .IDLE, selectedIndex := -1, score := 0, combo := 0,
    highScore := 0, teamProgress := 0, isLevelComplete := false, moves := 25,
    maxMoves := 25, levelState := .PLAYING, targetScore := 3000,
    drawPos := 0, nextId := 64 }

/-- The state after the first fixture swap settles. -/
def s1val : EngineState := (performSwap wdraws 8 s0 59 51).getD s0

/-- Color pattern of the bridge board refuting the raw-restricted
grouping: two horizontal three-runs of kind 1 joined only through two
kind-1 cells that are not raw-matched. -/
def cexColors (i : ℕ) : ℕ :=
  let r := i / 8
  let c := i % 8
  if r = 0 && c ≤ 2 then 1
  else if r = 0 && c = 3 then 0
  else if r = 1 && (c = 2 || c = 3) then 1
  else if r = 2 && (3 ≤ c && c ≤ 5) then 1
  else c % 2 + 2 * (r % 2)

/-- The bridge board. -/
def cexGrid : Grid := (List.range 64).map fun i => ⟨i, cexColors i, i, false, false⟩

/-- An adversarial draw stream that always yields kind 0. -/
def monoDraws (_ : ℕ) : ℕ := 0

/-- A cooperative draw stream whose first draw for every cell already
avoids a match (stripes of period two in both directions). -/
def stripeDraws (n : ℕ) : ℕ := n % 2 + 2 * (n / 8 % 2)

/-- The board generated from the cooperative stream. -/
def stripeGrid : Grid := (generateInitialGrid stripeDraws none 0 0).1

/-- Settled state and step count of the first fixture cascade. -/
def s1pair : EngineState × ℕ :=
  (processCascadeAux wdraws 8 (swapAccepted s0 59 51) 0).getD (s0, 0)

/-- Result of the fixture no-match swap (cells 0 and 1 hold different
kinds and exchanging them creates no run). -/
def s7val : EngineState := (performSwap wdraws 8 s0 0 1).getD s0

/-- Result of running the cascade loop on the already-settled fixture
board (it settles immediately with zero steps). -/
def c2out : EngineState × ℕ := (processCascadeAux wdraws 1 s0 0).getD (s0, 0)

/-- The fixture state with the level already won. -/
def s0won : EngineState := { s0 with levelState := .WON }

/-!
Support lemmas about the cascade loop and the store actions.
-/

/-- Updating a cell's index field with its own value is the identity. -/
theorem elem_index_update_self (e : Element) : { e with index := e.index } = e := by
  cases e; rfl

/-- checkWinLossCondition never touches the move counter. -/
theorem checkWinLossCondition_moves (s : EngineState) :
    (checkWinLossCondition s).moves = s.moves := by
  unfold checkWinLossCondition; split_ifs <;> rfl

/-- Gravity and refill touch only the board, the draw cursor and the id
counter: every other field of a cascade step comes straight from its
score-and-bookkeeping half. -/
theorem cascadeStep_proj (draws : ℕ → ℕ) (s : EngineState) (c : ℕ) :
    (cascadeStep draws s c).moves = (cascadeScoreState s c).moves ∧
    (cascadeStep draws s c).targetScore = (cascadeScoreState s c).targetScore ∧
    (cascadeStep draws s c).maxMoves = (cascadeScoreState s c).maxMoves ∧
    (cascadeStep draws s c).combo = (cascadeScoreState s c).combo ∧
    (cascadeStep draws s c).teamProgress = (cascadeScoreState s c).teamProgress ∧
    (cascadeStep draws s c).isLevelComplete = (cascadeScoreState s c).isLevelComplete ∧
    (cascadeStep draws s c).score = (cascadeScoreState s c).score := by
  refine ⟨?_, ?_, ?_, ?_, ?_, ?_, ?_⟩ <;>
    (unfold cascadeStep; dsimp only [setGrid, setPhase])

/-- The score half of a cascade step preserves the move counter, the
level target and the starting budget, and bumps the combo by one. -/
theorem cascadeScoreState_fields (s : EngineState) (c : ℕ) :
    (cascadeScoreState s c).moves = s.moves ∧
    (cascadeScoreState s c).targetScore = s.targetScore ∧
    (cascadeScoreState s c).maxMoves = s.maxMoves ∧
    (cascadeScoreState s c).combo = s.combo + 1 := by
  unfold cascadeScoreState addScore addContribution incrementCombo checkWinLossCondition
    setGrid
  dsimp only
  split_ifs <;> simp

/-- A cascade step preserves the move counter, the level target and the
starting move budget, and bumps the combo counter by exactly one. -/
theorem cascadeStep_fields (draws : ℕ → ℕ) (s : EngineState) (c : ℕ) :
    (cascadeStep draws s c).moves = s.moves ∧
    (cascadeStep draws s c).targetScore = s.targetScore ∧
    (cascadeStep draws s c).maxMoves = s.maxMoves ∧
    (cascadeStep draws s c).combo = s.combo + 1 := by
  obtain ⟨p1, p2, p3, p4, _, _, _⟩ := cascadeStep_proj draws s c
  obtain ⟨q1, q2, q3, q4⟩ := cascadeScoreState_fields s c
  exact ⟨p1.trans q1, p2.trans q2, p3.trans q3, p4.trans q4⟩

/-- The cascade loop, when it settles, preserves the move counter and
the level target, ends with a settled board, never runs the step count
backwards, and accumulates one combo per step without ever resetting a
nonzero run (the reset branch only fires on a zero-step cascade). -/
theorem processCascadeAux_spec (draws : ℕ → ℕ) :
    ∀ (fuel : ℕ) (s : EngineState) (c : ℕ) (s' : EngineState) (n : ℕ),
      processCascadeAux draws fuel s c = some (s', n) →
      s'.moves = s.moves ∧ s'.targetScore = s.targetScore ∧
      detectAllMatches s'.grid = [] ∧ c ≤ n ∧
      s'.combo = if n = 0 then 0 else s.combo + (n - c) := by
  intro fuel
  induction fuel with
  | zero => intro s c s' n h; simp [processCascadeAux] at h
  | succ fuel ih =>
      intro s c s' n h
      rw [processCascadeAux] at h
      dsimp only at h
      split at h
      · rename_i hempty
        simp only [Option.some.injEq, Prod.mk.injEq] at h
        obtain ⟨h1, h2⟩ := h
        subst h2
        refine ⟨?_, ?_, ?_, le_refl _, ?_⟩ <;> rw [← h1]
        · split <;> rfl
        · split <;> rfl
        · have hd := List.isEmpty_iff.mp hempty
          split <;> exact hd
        · split
          · rename_i hc; simp [hc, setPhase, resetCombo]
          · rename_i hc; simp [hc, setPhase]
      · rcases ih _ _ _ _ h with ⟨hm, ht, hd, hc, hcombo⟩
        obtain ⟨sm, st, _, scombo⟩ :=
          cascadeStep_fields draws (setPhase Phase.MATCHING s) c
        refine ⟨by rw [hm, sm]; rfl, by rw [ht, st]; rfl, hd, by omega, ?_⟩
        rw [hcombo, scombo]
        have hn : c + 1 ≤ n := hc
        have : n ≠ 0 := by omega
        simp only [this, if_false]
        show (setPhase Phase.MATCHING s).combo + 1 + (n - (c + 1)) = _
        have : s.combo + 1 + (n - (c + 1)) = s.combo + (n - c) := by omega
        simp [setPhase, this]

/-- checkWinLossCondition leaves progress, score and target untouched,
and never clears the completion latch. -/
theorem checkWinLossCondition_fieldsQ (s : EngineState) :
    (checkWinLossCondition s).teamProgress = s.teamProgress ∧
    (checkWinLossCondition s).score = s.score ∧
    (checkWinLossCondition s).targetScore = s.targetScore ∧
    (s.isLevelComplete = true → (checkWinLossCondition s).isLevelComplete = true) := by
  unfold checkWinLossCondition; split_ifs <;> simp_all

/-- checkWinLossCondition preserves the progress invariant. -/
theorem checkWinLossCondition_inv (s : EngineState) (hInv : ProgressInv s) :
    ProgressInv (checkWinLossCondition s) := by
  obtain ⟨hprog, hcomp⟩ := hInv
  unfold checkWinLossCondition
  split_ifs with h1 h2 h3
  · exact ⟨hprog, hcomp⟩
  · refine ⟨hprog, ?_⟩
    simp only [true_iff]
    have h1' : (1 : ℚ) ≤ min ((s.score : ℚ) / (s.targetScore : ℚ)) 1 := hprog ▸ h2
    have := (le_min_iff.mp h1').1
    rcases eq_or_lt_of_le (Nat.cast_nonneg (α := ℚ) s.targetScore) with h0 | h0
    · rw [← h0] at this ⊢
      simp only [Nat.cast_nonneg]
    · exact (one_le_div h0).mp this
  · exact ⟨hprog, hcomp⟩
  · exact ⟨hprog, hcomp⟩

/-- The paired addScore-addContribution update a cascade step performs:
it keeps the progress invariant, never lowers the progress bar, is a
pure score bump once the level is complete, and preserves the target. -/
theorem addContribution_addScore_progress (pts : ℕ) (s : EngineState)
    (hInv : ProgressInv s) (ht : 0 < s.targetScore) :
    ProgressInv (addContribution pts (addScore pts s)) ∧
    s.teamProgress ≤ (addContribution pts (addScore pts s)).teamProgress ∧
    (s.isLevelComplete = true →
      (addContribution pts (addScore pts s)).teamProgress = s.teamProgress ∧
      (addContribution pts (addScore pts s)).isLevelComplete = true) ∧
    (addContribution pts (addScore pts s)).targetScore = s.targetScore := by
  obtain ⟨hprog, hcomp⟩ := hInv
  have htq : (0 : ℚ) < (s.targetScore : ℚ) := by exact_mod_cast ht
  by_cases hC : s.isLevelComplete = true
  · have hts : (s.targetScore : ℚ) ≤ (s.score : ℚ) := hcomp.mp hC
    have hid : addContribution pts (addScore pts s) = addScore pts s := by
      unfold addContribution addScore; rw [if_pos]; exact hC
    have hle : (s.score : ℚ) ≤ ((s.score + pts : ℕ) : ℚ) := by push_cast; linarith
    have hone : (1 : ℚ) ≤ ((s.score + pts : ℕ) : ℚ) / (s.targetScore : ℚ) :=
      (one_le_div htq).mpr (le_trans hts hle)
    have hp1 : s.teamProgress = 1 := by
      rw [hprog]
      exact min_eq_right ((one_le_div htq).mpr hts)
    rw [hid]
    refine ⟨⟨?_, ?_⟩, le_of_eq rfl, fun _ => ⟨rfl, hC⟩, rfl⟩
    · show s.teamProgress = min (((s.score + pts : ℕ) : ℚ) / (s.targetScore : ℚ)) 1
      rw [hp1, min_eq_right hone]
    · show s.isLevelComplete = true ↔ (s.targetScore : ℚ) ≤ ((s.score + pts : ℕ) : ℚ)
      exact ⟨fun _ => le_trans hts hle, fun _ => hC⟩
  · have hid : addContribution pts (addScore pts s) =
        { addScore pts s with
          score := (addScore pts s).score + pts
          teamProgress := min ((((addScore pts s).score + pts : ℕ) : ℚ) /
            (((addScore pts s).targetScore : ℕ) : ℚ)) 1
          isLevelComplete := decide ((1 : ℚ) ≤ min ((((addScore pts s).score + pts : ℕ) : ℚ) /
            (((addScore pts s).targetScore : ℕ) : ℚ)) 1)
          highScore := max (addScore pts s).highScore ((addScore pts s).score + pts) } := by
      unfold addContribution
      rw [if_neg]
      show ¬ s.isLevelComplete = true
      exact hC
    have hsc : (addScore pts s).score = s.score + pts := rfl
    have htg : (addScore pts s).targetScore = s.targetScore := rfl
    rw [hid]
    unfold ProgressInv
    dsimp only
    rw [hsc, htg]
    refine ⟨⟨rfl, ?_⟩, ?_, fun h => absurd h hC, rfl⟩
    · rw [decide_eq_true_iff, le_min_iff]
      constructor
      · intro h
        exact (one_le_div htq).mp h.1
      · intro h
        exact ⟨(one_le_div htq).mpr h, le_refl 1⟩
    · rw [hprog]
      refine min_le_min ?_ (le_refl 1)
      refine div_le_div_of_nonneg_right ?_ (le_of_lt htq)
      push_cast
      linarith

/-- One full score-and-contribution update sequence of a cascade step
(score, contribution, combo, win check): progress invariant preserved,
progress monotone, frozen once won. -/
theorem scoreUpdate_progress (pts : ℕ) (s : EngineState)
    (hInv : ProgressInv s) (ht : 0 < s.targetScore) :
    ProgressInv (checkWinLossCondition (incrementCombo (addContribution pts (addScore pts s)))) ∧
    s.teamProgress ≤
      (checkWinLossCondition (incrementCombo (addContribution pts (addScore pts s)))).teamProgress ∧
    (s.isLevelComplete = true →
      (checkWinLossCondition (incrementCombo (addContribution pts (addScore pts s)))).teamProgress
          = s.teamProgress ∧
      (checkWinLossCondition (incrementCombo (addContribution pts (addScore pts s)))).isLevelComplete
          = true) := by
  obtain ⟨hi, hmono, hfroz, htg⟩ := addContribution_addScore_progress pts s hInv ht
  set u := addContribution pts (addScore pts s) with hu
  have hiu : ProgressInv (incrementCombo u) := hi
  have hinv' := checkWinLossCondition_inv (incrementCombo u) hiu
  obtain ⟨hq, _, _, hlatch⟩ := checkWinLossCondition_fieldsQ (incrementCombo u)
  have hqc : (incrementCombo u).teamProgress = u.teamProgress := rfl
  refine ⟨hinv', ?_, ?_⟩
  · rw [hq, hqc]; exact hmono
  · intro hC
    obtain ⟨hfz, hcmp⟩ := hfroz hC
    exact ⟨by rw [hq, hqc, hfz], hlatch (by exact hcmp)⟩

/-- A full cascade step keeps the progress invariant, never lowers the
progress bar, and leaves it frozen (latch included) once the level is
won. -/
theorem cascadeStep_progress (draws : ℕ → ℕ) (s : EngineState) (c : ℕ)
    (hInv : ProgressInv s) (ht : 0 < s.targetScore) :
    ProgressInv (cascadeStep draws s c) ∧
    s.teamProgress ≤ (cascadeStep draws s c).teamProgress ∧
    (s.isLevelComplete = true →
      (cascadeStep draws s c).teamProgress = s.teamProgress ∧
      (cascadeStep draws s c).isLevelComplete = true) := by
  have hInv' : ProgressInv (setGrid
      (s.grid.map fun e =>
        { e with isMatched := (cascadeMatchedIndices s).contains e.index })
      s) := hInv
  have h := scoreUpdate_progress
    ((cascadeMatchedIndices s).length * 10 * (c + 1)) _ hInv' ht
  have heq : cascadeScoreState s c =
      checkWinLossCondition (incrementCombo (addContribution
        ((cascadeMatchedIndices s).length * 10 * (c + 1))
        (addScore ((cascadeMatchedIndices s).length * 10 * (c + 1))
          (setGrid (s.grid.map fun e =>
              { e with isMatched := (cascadeMatchedIndices s).contains e.index }) s)))) := rfl
  obtain ⟨w1, w2, w3⟩ := h
  obtain ⟨_, _, _, _, p5, p6, p7⟩ := cascadeStep_proj draws s c
  refine ⟨?_, ?_, ?_⟩
  · obtain ⟨i1, i2⟩ := w1
    constructor
    · rw [p5, p7, (cascadeStep_proj draws s c).2.1, heq]
      exact i1
    · rw [p6, p7, (cascadeStep_proj draws s c).2.1, heq]
      exact i2
  · rw [p5, heq]; exact w2
  · intro hC
    obtain ⟨f1, f2⟩ := w3 hC
    exact ⟨by rw [p5, heq]; exact f1, by rw [p6, heq]; exact f2⟩

/-- The settled cascade loop keeps the progress invariant, never
lowers the progress bar, and leaves it frozen once the level is won. -/
theorem processCascadeAux_progress (draws : ℕ → ℕ) :
    ∀ (fuel : ℕ) (s : EngineState) (c : ℕ) (s' : EngineState) (n : ℕ),
      ProgressInv s → 0 < s.targetScore →
      processCascadeAux draws fuel s c = some (s', n) →
      ProgressInv s' ∧ s.teamProgress ≤ s'.teamProgress ∧
      (s.isLevelComplete = true →
        s'.teamProgress = s.teamProgress ∧ s'.isLevelComplete = true) := by
  intro fuel
  induction fuel with
  | zero => intro s c s' n _ _ h; simp [processCascadeAux] at h
  | succ fuel ih =>
      intro s c s' n hInv ht h
      rw [processCascadeAux] at h
      dsimp only at h
      split at h
      · simp only [Option.some.injEq, Prod.mk.injEq] at h
        obtain ⟨h1, _⟩ := h
        subst h1
        constructor
        · split <;> exact hInv
        constructor
        · split <;> exact le_refl _
        · intro hC
          split <;> exact ⟨rfl, hC⟩
      · obtain ⟨hstep, hmono, hfroz⟩ :=
          cascadeStep_progress draws (setPhase Phase.MATCHING s) c hInv ht
        have htgt : 0 < (cascadeStep draws (setPhase Phase.MATCHING s) c).targetScore := by
          have := (cascadeStep_fields draws (setPhase Phase.MATCHING s) c).2.1
          rw [this]; exact ht
        obtain ⟨hInv', hmono', hfroz'⟩ := ih _ _ _ _ hstep htgt h
        refine ⟨hInv', le_trans hmono hmono', ?_⟩
        intro hC
        obtain ⟨hfz, hcmp⟩ := hfroz hC
        obtain ⟨hfz', hcmp'⟩ := hfroz' hcmp
        have hsp : (setPhase Phase.MATCHING s).teamProgress = s.teamProgress := rfl
        exact ⟨hfz'.trans (hfz.trans hsp), hcmp'⟩

/-- swapGrid preserves the board length. -/
theorem swapGrid_length (g : Grid) (f t : ℕ) : (swapGrid g f t).length = g.length := by
  simp [swapGrid]

/-- Exchanging the same two slots twice restores the board exactly,
provided the two cells' index fields named their slots (as they do on
every board the engine builds). -/
theorem swapGrid_swapGrid (g : Grid) (f t : ℕ) (hf : f < g.length) (ht : t < g.length)
    (hne : f ≠ t) (hif : (g.getD f default).index = f)
    (hit : (g.getD t default).index = t) :
    swapGrid (swapGrid g f t) f t = g := by
  have hswX : ∀ x : Grid, swapGrid x f t =
      (x.set f { x.getD t default with index := f }).set t
        { x.getD f default with index := t } := fun x => rfl
  have hga : g[f]? = some (g.getD f default) := by
    rw [List.getD_eq_getElem?_getD, List.getElem?_eq_getElem hf]; rfl
  have hgb : g[t]? = some (g.getD t default) := by
    rw [List.getD_eq_getElem?_getD, List.getElem?_eq_getElem ht]; rfl
  have hd1f : (swapGrid g f t).getD f default = { g.getD t default with index := f } := by
    rw [List.getD_eq_getElem?_getD, hswX g, List.getElem?_set, if_neg (Ne.symm hne),
      List.getElem?_set, if_pos rfl, if_pos hf]
    rfl
  have hd1t : (swapGrid g f t).getD t default = { g.getD f default with index := t } := by
    rw [List.getD_eq_getElem?_getD, hswX g, List.getElem?_set, if_pos rfl,
      List.length_set, if_pos ht]
    rfl
  apply List.ext_getElem?
  intro n
  rw [hswX (swapGrid g f t), hd1f, hd1t]
  by_cases hnt : t = n
  · subst hnt
    rw [List.getElem?_set, if_pos rfl, List.length_set, swapGrid_length g f t,
      if_pos ht, hgb]
    have e2 : ({ g.getD t default with index := t } : Element) = g.getD t default := by
      generalize hx : g.getD t default = x
      rw [hx] at hit
      rw [← hit]
    exact congrArg some e2
  · rw [List.getElem?_set, if_neg hnt]
    by_cases hnf : f = n
    · subst hnf
      rw [List.getElem?_set, if_pos rfl, swapGrid_length g f t, if_pos hf, hga]
      have e1 : ({ g.getD f default with index := f } : Element) = g.getD f default := by
        generalize hx : g.getD f default = x
        rw [hx] at hif
        rw [← hif]
      exact congrArg some e1
    · rw [List.getElem?_set, if_neg hnf, hswX g, List.getElem?_set, if_neg hnt,
        List.getElem?_set, if_neg hnf]

/-!
Claim theorems.
-/

/-- C1: a swap performed while the level is in play (the only way the
engine reaches performSwap) whose post-swap board contains a match
consumes exactly one move, deducted before the cascade runs and never
touched again by it; a swap producing no match leaves the remaining
moves unchanged. -/
theorem c1_move_consumption (draws : ℕ → ℕ) (fuel : ℕ) (s : EngineState)
    (f t : ℕ) (s' : EngineState)
    (hp : s.levelState = LevelState.PLAYING) (hm : 0 < s.moves)
    (h : performSwap draws fuel s f t = some s') :
    ((detectAllMatches (swapGrid s.grid f t)).isEmpty = false → s'.moves + 1 = s.moves) ∧
    ((detectAllMatches (swapGrid s.grid f t)).isEmpty = true → s'.moves = s.moves) := by
  rw [performSwap] at h
  dsimp only at h
  split at h
  · rename_i hemp
    simp only [Option.some.injEq] at h
    subst h
    constructor
    · intro hfalse
      have h2 : (detectAllMatches (swapGrid s.grid f t)).isEmpty = true := hemp
      rw [h2] at hfalse
      simp at hfalse
    · intro _
      rfl
  · rename_i hemp
    rw [processCascade] at h
    obtain ⟨p, hrun, hfst⟩ := Option.map_eq_some'.mp h
    have hdm : (decrementMoves (swapPrepared s f t)).moves = s.moves - 1 := by
      rw [decrementMoves, if_neg]
      · exact (checkWinLossCondition_moves _).trans rfl
      · intro hcon
        exact hcon hp
    obtain ⟨hmv, _, _, _, _⟩ := processCascadeAux_spec draws fuel _ 0 p.1 p.2
      (by rw [← hrun])
    constructor
    · intro _
      rw [← hfst, hmv, hdm]
      omega
    · intro htrue
      exact absurd htrue hemp

/-- C1 witness at the fixture board: the swap of cells 59 and 51
produces a match and the settled state holds one move fewer. -/
theorem c1_witness :
    ((detectAllMatches (swapGrid s0.grid 59 51)).isEmpty = false → s1val.moves + 1 = s0.moves) ∧
    ((detectAllMatches (swapGrid s0.grid 59 51)).isEmpty = true → s1val.moves = s0.moves) :=
  c1_move_consumption wdraws 8 s0 59 51 s1val rfl (by decide)
    (by with_unfolding_all rfl)

/-- C2: whenever the cascade loop settles from a state whose progress
bookkeeping is consistent (as it is at level start), the final progress
equals min(score divided by target, 1), progress never decreased, and a
level already won keeps its progress frozen. -/
theorem c2_contribution_progress (draws : ℕ → ℕ) (fuel : ℕ) (s : EngineState)
    (c : ℕ) (s' : EngineState) (n : ℕ)
    (hInv : ProgressInv s) (ht : 0 < s.targetScore)
    (h : processCascadeAux draws fuel s c = some (s', n)) :
    s'.teamProgress = min ((s'.score : ℚ) / (s'.targetScore : ℚ)) 1 ∧
    s.teamProgress ≤ s'.teamProgress ∧
    (s.isLevelComplete = true → s'.teamProgress = s.teamProgress) := by
  obtain ⟨hInv', hmono, hfroz⟩ :=
    processCascadeAux_progress draws fuel s c s' n hInv ht h
  exact ⟨hInv'.1, hmono, fun hC => (hfroz hC).1⟩

/-- C2 witness at the fixture level-start state. -/
theorem c2_witness :
    c2out.1.teamProgress = min ((c2out.1.score : ℚ) / (c2out.1.targetScore : ℚ)) 1 ∧
    s0.teamProgress ≤ c2out.1.teamProgress ∧
    (s0.isLevelComplete = true → c2out.1.teamProgress = s0.teamProgress) :=
  c2_contribution_progress wdraws 1 s0 0 c2out.1 c2out.2
    ⟨by norm_num [s0], by norm_num [s0]⟩ (by norm_num [s0])
    (by with_unfolding_all rfl)

/-- C3: while the level outcome is decided (not PLAYING), both input
entry points return the state unchanged: taps and swipes are silent
no-ops. -/
theorem c3_input_rejected_when_decided (draws : ℕ → ℕ) (fuel : ℕ) (s : EngineState)
    (i f : ℕ) (d : SwipeDir) (h : s.levelState ≠ LevelState.PLAYING) :
    handleElementTap draws fuel s i = some s ∧ handleSwipe draws fuel s f d = some s := by
  constructor
  · rw [handleElementTap, if_pos (Or.inr h)]
  · rw [handleSwipe, if_pos (Or.inr h)]

/-- C3 witness: with the fixture level won, a tap on cell 5 and an
upward swipe from cell 5 both leave the state untouched. -/
theorem c3_witness :
    handleElementTap wdraws 8 s0won 5 = some s0won ∧
    handleSwipe wdraws 8 s0won 5 SwipeDir.up = some s0won :=
  c3_input_rejected_when_decided wdraws 8 s0won 5 5 SwipeDir.up (by decide)

/-- C5 (amended): the cascade loop adds one combo per cascade step on
top of the incoming combo value, never resetting a nonzero run: when a
cascade of depth n - c settles, the combo equals the pre-cascade combo
plus that depth (the reset branch only fires for a zero-step cascade). -/
theorem c5_combo_accumulates (draws : ℕ → ℕ) (fuel : ℕ) (s : EngineState)
    (c : ℕ) (s' : EngineState) (n : ℕ)
    (h : processCascadeAux draws fuel s c = some (s', n)) :
    c ≤ n ∧ s'.combo = if n = 0 then 0 else s.combo + (n - c) := by
  obtain ⟨_, _, _, hc, hcombo⟩ := processCascadeAux_spec draws fuel s c s' n h
  exact ⟨hc, hcombo⟩

/-- C5 witness: the first fixture cascade (one step, entered with combo
zero) settles with combo one. -/
theorem c5_witness :
    0 ≤ s1pair.2 ∧ s1pair.1.combo =
      if s1pair.2 = 0 then 0 else (swapAccepted s0 59 51).combo + (s1pair.2 - 0) :=
  c5_combo_accumulates wdraws 8 (swapAccepted s0 59 51) 0 s1pair.1 s1pair.2
    (by with_unfolding_all rfl)

/-- C5 counterexample: after one successful single-step swap the combo
is 1; a second single-step swap settles with combo 2, although the
1-indexed cascade depth of that second swap is 1 — the counter
accumulates across user swaps instead of matching the depth. -/
theorem c5_counterexample :
    ((performSwap wdraws 8 s0 59 51).bind fun s1 =>
        processCascadeAux wdraws 8 (swapAccepted s1 35 43) 0).map
      (fun p => (p.1.combo, p.2)) = some (2, 1) ∧ (2 : ℕ) ≠ 1 :=
  ⟨by with_unfolding_all rfl, by decide⟩

/-- C7: a swap of two distinct on-board cells whose post-swap board has
no match settles back to IDLE with the board cell-for-cell equal to its
pre-swap state (ids, kinds, flags and index fields included) and the
move counter untouched. -/
theorem c7_invalid_swap_reversible (draws : ℕ → ℕ) (fuel : ℕ) (s : EngineState)
    (f t : ℕ) (s' : EngineState)
    (hwf : WellFormedGrid s.grid) (hlen : s.grid.length = TOTAL_CELLS)
    (hf : f < TOTAL_CELLS) (ht : t < TOTAL_CELLS) (hne : f ≠ t)
    (hnom : (detectAllMatches (swapGrid s.grid f t)).isEmpty = true)
    (h : performSwap draws fuel s f t = some s') :
    s'.grid = s.grid ∧ s'.moves = s.moves ∧ s'.phase = Phase.IDLE := by
  rw [performSwap] at h
  dsimp only at h
  rw [if_pos (show (detectAllMatches (swapPrepared s f t).grid).isEmpty = true from hnom)] at h
  simp only [Option.some.injEq] at h
  subst h
  refine ⟨?_, rfl, rfl⟩
  show swapGrid (swapGrid s.grid f t) f t = s.grid
  exact swapGrid_swapGrid s.grid f t (by rw [hlen]; exact hf) (by rw [hlen]; exact ht)
    hne (hwf f hf) (hwf t ht)

/-- C7 witness: exchanging fixture cells 0 and 1 creates no match and
hands back the original board with all moves intact. -/
theorem c7_witness :
    s7val.grid = s0.grid ∧ s7val.moves = s0.moves ∧ s7val.phase = Phase.IDLE :=
  c7_invalid_swap_reversible wdraws 8 s0 0 1 s7val
    (by unfold WellFormedGrid; decide) (by decide)
    (by decide) (by decide) (by decide) (by decide) (by with_unfolding_all rfl)

/-- C8: the code evaluated at the failing input.  The fixture swap
resolves exactly one group of three cells on cascade step one, for
which the claim (and the spec's scenario) prescribe 3 x 10 x 1 = 30
points; the engine's score rises by 60 because processCascade passes
the step score to both addScore and addContribution and each adds it to
the score field. -/
theorem c8_score_doubled_eval :
    (detectAllMatches (swapGrid s0.grid 59 51)).map (·.count) = [3] ∧
    (performSwap wdraws 8 s0 59 51).map (·.score) = some 60 ∧ (60 : ℕ) ≠ 30 :=
  ⟨by decide, by with_unfolding_all rfl, by decide⟩

/-- C4 counterexample: under the adversarial draw stream that always
yields kind 0, every retry of every cell fails, the generated board is
monochrome, and the detector finds matches in the Idle state right
after generation. -/
theorem c4_counterexample :
    detectAllMatches (generateInitialGrid monoDraws none 0 0).1 ≠ [] := by decide

/-- C10: addMoves adds the count to the remaining moves and
unconditionally returns the outcome to PLAYING, whatever the previous
outcome (WON included) was. -/
theorem c10_addMoves_resumes_playing (s : EngineState) (c : ℕ) :
    (addMoves c s).moves = s.moves + c ∧
    (addMoves c s).levelState = LevelState.PLAYING :=
  ⟨rfl, rfl⟩

/-!
Characterization of the line scan: a position is marked exactly when it
lies in the window of some three-equal-colors triple of its line.
-/

/-- Any position of a same-color run of length at least three sits in
the window of a triple ending inside the run. -/
theorem run_gives_triple (c : ℕ → ℕ) (ms col mc x : ℕ)
    (hrun : ∀ j, ms ≤ j → j < col → c j = mc)
    (hlen : ms + 3 ≤ col) (hx1 : ms ≤ x) (hx2 : x < col) :
    ∃ t, t < col ∧ tripleAt c t ∧ t - 2 ≤ x ∧ x ≤ t := by
  refine ⟨max x (ms + 2), by omega, ⟨by omega, ?_, ?_⟩, by omega, le_max_left x _⟩
  · rw [hrun (max x (ms + 2)) (by omega) (by omega),
      hrun (max x (ms + 2) - 1) (by omega) (by omega)]
  · rw [hrun (max x (ms + 2) - 1) (by omega) (by omega),
      hrun (max x (ms + 2) - 2) (by omega) (by omega)]

/-- A triple cannot end less than two positions into a maximal run: the
run's left boundary forbids it. -/
theorem run_triple_lb (c : ℕ → ℕ) (ms col mc t : ℕ)
    (hrun : ∀ j, ms ≤ j → j < col → c j = mc)
    (hmax : ms = 0 ∨ c (ms - 1) ≠ mc) (htrip : tripleAt c t)
    (hms : ms ≤ t) (htc : t < col) : ms + 2 ≤ t := by
  obtain ⟨h2, e1, e2⟩ := htrip
  by_contra hlt
  rcases hmax with h0 | hne
  · omega
  · have hcase : t = ms ∨ t = ms + 1 := by omega
    have hms1 : 1 ≤ ms := by omega
    rcases hcase with h1 | h1
    · apply hne
      rw [show t - 1 = ms - 1 from by omega] at e1
      rw [← e1]
      exact hrun t hms htc
    · apply hne
      rw [show t - 2 = ms - 1 from by omega] at e2
      rw [← e2, show t - 1 = ms from by omega]
      exact hrun ms (le_refl ms) (by omega)

/-- Loop invariant characterization of the scan: given the run state
invariants, the final marked set is exactly the set of triple windows
of the whole line. -/
theorem lineScanGo_spec (c : ℕ → ℕ) :
    ∀ (k col ms mc ml : ℕ) (acc : List ℕ),
      col + k = GRID_SIZE → 1 ≤ col → ms + ml = col → 1 ≤ ml →
      (∀ j, ms ≤ j → j < col → c j = mc) →
      (ms = 0 ∨ c (ms - 1) ≠ mc) →
      (∀ x, x ∈ acc ↔ ∃ t, t < ms ∧ tripleAt c t ∧ t - 2 ≤ x ∧ x ≤ t) →
      ∀ x, x ∈ lineScanGo c k col ms mc ml acc ↔
        ∃ t, t < GRID_SIZE ∧ tripleAt c t ∧ t - 2 ≤ x ∧ x ≤ t := by
  intro k
  induction k with
  | zero =>
      intro col ms mc ml acc hcol hc1 hms hml hrun hmax hacc x
      have hc8 : col = GRID_SIZE := by omega
      subst hc8
      simp only [lineScanGo]
      split_ifs with hml3
      · have h3 : 3 ≤ ml := hml3
        rw [List.mem_append]
        constructor
        · rintro (hx | hx)
          · obtain ⟨t, ht, rest⟩ := (hacc x).mp hx
            exact ⟨t, by omega, rest⟩
          · rw [List.mem_range'_1] at hx
            exact run_gives_triple c ms GRID_SIZE mc x hrun (by omega) (by omega) (by omega)
        · rintro ⟨t, ht8, htrip, hw1, hw2⟩
          by_cases htms : t < ms
          · exact Or.inl ((hacc x).mpr ⟨t, htms, htrip, hw1, hw2⟩)
          · have hlb := run_triple_lb c ms GRID_SIZE mc t hrun hmax htrip (by omega) ht8
            right
            rw [List.mem_range'_1]
            omega
      · constructor
        · intro hx
          obtain ⟨t, ht, rest⟩ := (hacc x).mp hx
          exact ⟨t, by omega, rest⟩
        · rintro ⟨t, ht8, htrip, hw1, hw2⟩
          by_cases htms : t < ms
          · exact (hacc x).mpr ⟨t, htms, htrip, hw1, hw2⟩
          · have hlb := run_triple_lb c ms GRID_SIZE mc t hrun hmax htrip (by omega) ht8
            exact absurd (show MIN_MATCH ≤ ml by unfold MIN_MATCH; omega) hml3
  | succ k ih =>
      intro col ms mc ml acc hcol hc1 hms hml hrun hmax hacc x
      simp only [lineScanGo]
      split_ifs with heq hml3
      · refine ih (col + 1) ms mc (ml + 1) acc (by omega) (by omega) (by omega) (by omega)
          ?_ hmax hacc x
        intro j hj1 hj2
        rcases Nat.lt_or_ge j col with h | h
        · exact hrun j hj1 h
        · rw [show j = col from by omega]
          exact heq
      · refine ih (col + 1) col (c col) 1 _ (by omega) (by omega) (by omega) (by omega)
          ?_ ?_ ?_ x
        · intro j hj1 hj2
          rw [show j = col from by omega]
        · right
          rw [hrun (col - 1) (by unfold MIN_MATCH at hml3; omega) (by omega)]
          exact fun hcon => heq hcon.symm
        · intro y
          rw [List.mem_append]
          constructor
          · rintro (hy | hy)
            · obtain ⟨t, ht, rest⟩ := (hacc y).mp hy
              exact ⟨t, by omega, rest⟩
            · rw [List.mem_range'_1] at hy
              exact run_gives_triple c ms col mc y hrun
                (by unfold MIN_MATCH at hml3; omega) (by omega) (by omega)
          · rintro ⟨t, htc, htrip, hw1, hw2⟩
            by_cases htms : t < ms
            · exact Or.inl ((hacc y).mpr ⟨t, htms, htrip, hw1, hw2⟩)
            · have hlb := run_triple_lb c ms col mc t hrun hmax htrip (by omega) htc
              right
              rw [List.mem_range'_1]
              omega
      · refine ih (col + 1) col (c col) 1 acc (by omega) (by omega) (by omega) (by omega)
          ?_ ?_ ?_ x
        · intro j hj1 hj2
          rw [show j = col from by omega]
        · right
          rw [hrun (col - 1) (by omega) (by omega)]
          exact fun hcon => heq hcon.symm
        · intro y
          rw [hacc y]
          constructor
          · rintro ⟨t, ht, rest⟩
            exact ⟨t, by omega, rest⟩
          · rintro ⟨t, htc, htrip, hw1, hw2⟩
            by_cases htms : t < ms
            · exact ⟨t, htms, htrip, hw1, hw2⟩
            · have hlb := run_triple_lb c ms col mc t hrun hmax htrip (by omega) htc
              exact absurd (show MIN_MATCH ≤ ml by unfold MIN_MATCH; omega) hml3

/-- The line scan marks exactly the triple windows of the line. -/
theorem lineScan_spec (c : ℕ → ℕ) (x : ℕ) :
    x ∈ lineScan c ↔ ∃ t, t < GRID_SIZE ∧ tripleAt c t ∧ t - 2 ≤ x ∧ x ≤ t := by
  refine lineScanGo_spec c (GRID_SIZE - 1) 1 0 (c 0) 1 [] (by decide) (le_refl 1)
    (by decide) (le_refl 1) ?_ (Or.inl rfl) ?_ x
  · intro j hj1 hj2
    rw [show j = 0 from by omega]
  · intro y
    simp only [List.not_mem_nil, false_iff]
    rintro ⟨t, ht, _⟩
    omega

/-- A cell is horizontally raw-matched exactly when it lies in the
window of a horizontal three-in-a-row of its own row. -/
theorem findHorizontalMatches_spec (g : Grid) (i : ℕ) :
    i ∈ findHorizontalMatches g ↔
      ∃ j, j < TOTAL_CELLS ∧ HTriple g j ∧ rowOf i = rowOf j ∧ j - 2 ≤ i ∧ i ≤ j := by
  unfold findHorizontalMatches
  rw [List.mem_flatMap]
  constructor
  · rintro ⟨row, hrow, hmem⟩
    rw [List.mem_range] at hrow
    rw [List.mem_map] at hmem
    obtain ⟨col, hcol, rfl⟩ := hmem
    rw [lineScan_spec] at hcol
    obtain ⟨t, ht8, ⟨h2, e1, e2⟩, hw1, hw2⟩ := hcol
    have harith1 : positionToIndex row t - 1 = positionToIndex row (t - 1) := by
      simp only [positionToIndex, GRID_SIZE]; omega
    have harith2 : positionToIndex row t - 2 = positionToIndex row (t - 2) := by
      simp only [positionToIndex, GRID_SIZE]; omega
    refine ⟨positionToIndex row t, ?_, ⟨?_, ?_, ?_⟩, ?_, ?_, ?_⟩
    · simp only [positionToIndex, GRID_SIZE, TOTAL_CELLS] at *; omega
    · simp only [colOf, positionToIndex, GRID_SIZE] at *; omega
    · rw [harith1]; exact e1
    · rw [harith1, harith2]; exact e2
    · simp only [rowOf, positionToIndex, GRID_SIZE] at *; omega
    · simp only [positionToIndex, GRID_SIZE] at *; omega
    · simp only [positionToIndex, GRID_SIZE] at *; omega
  · rintro ⟨j, hj, ⟨h2, e1, e2⟩, hrow, hw1, hw2⟩
    refine ⟨rowOf j, ?_, ?_⟩
    · rw [List.mem_range]
      simp only [rowOf, TOTAL_CELLS, GRID_SIZE] at *; omega
    · rw [List.mem_map]
      refine ⟨colOf i, ?_, ?_⟩
      · rw [lineScan_spec]
        refine ⟨colOf j, ?_, ⟨h2, ?_, ?_⟩, ?_, ?_⟩
        · simp only [colOf, GRID_SIZE]; omega
        · have d1 : positionToIndex (rowOf j) (colOf j) = j := by
            simp only [positionToIndex, rowOf, colOf, GRID_SIZE] at *; omega
          have d2 : positionToIndex (rowOf j) (colOf j - 1) = j - 1 := by
            simp only [positionToIndex, rowOf, colOf, GRID_SIZE] at *; omega
          dsimp only
          rw [d1, d2]; exact e1
        · have d2 : positionToIndex (rowOf j) (colOf j - 1) = j - 1 := by
            simp only [positionToIndex, rowOf, colOf, GRID_SIZE] at *; omega
          have d3 : positionToIndex (rowOf j) (colOf j - 2) = j - 2 := by
            simp only [positionToIndex, rowOf, colOf, GRID_SIZE] at *; omega
          dsimp only
          rw [d2, d3]; exact e2
        · simp only [colOf, rowOf, GRID_SIZE] at *; omega
        · simp only [colOf, rowOf, GRID_SIZE] at *; omega
      · simp only [positionToIndex, rowOf, colOf, GRID_SIZE] at *; omega

/-- A cell is vertically raw-matched exactly when it lies in the window
of a vertical three-in-a-row of its own column. -/
theorem findVerticalMatches_spec (g : Grid) (i : ℕ) :
    i ∈ findVerticalMatches g ↔
      ∃ j, j < TOTAL_CELLS ∧ VTriple g j ∧ colOf i = colOf j ∧
        j - 2 * GRID_SIZE ≤ i ∧ i ≤ j := by
  unfold findVerticalMatches
  rw [List.mem_flatMap]
  constructor
  · rintro ⟨col, hcol, hmem⟩
    rw [List.mem_range] at hcol
    rw [List.mem_map] at hmem
    obtain ⟨row, hrowm, rfl⟩ := hmem
    rw [lineScan_spec] at hrowm
    obtain ⟨t, ht8, ⟨h2, e1, e2⟩, hw1, hw2⟩ := hrowm
    have harith1 : positionToIndex t col - GRID_SIZE = positionToIndex (t - 1) col := by
      simp only [positionToIndex, GRID_SIZE]; omega
    have harith2 : positionToIndex t col - 2 * GRID_SIZE = positionToIndex (t - 2) col := by
      simp only [positionToIndex, GRID_SIZE]; omega
    refine ⟨positionToIndex t col, ?_, ⟨?_, ?_, ?_⟩, ?_, ?_, ?_⟩
    · simp only [positionToIndex, GRID_SIZE, TOTAL_CELLS] at *; omega
    · simp only [rowOf, positionToIndex, GRID_SIZE] at *; omega
    · rw [harith1]; exact e1
    · rw [harith1, harith2]; exact e2
    · simp only [colOf, positionToIndex, GRID_SIZE] at *; omega
    · simp only [positionToIndex, GRID_SIZE] at *; omega
    · simp only [positionToIndex, GRID_SIZE] at *; omega
  · rintro ⟨j, hj, ⟨h2, e1, e2⟩, hcol, hw1, hw2⟩
    refine ⟨colOf j, ?_, ?_⟩
    · rw [List.mem_range]
      simp only [colOf, TOTAL_CELLS, GRID_SIZE] at *; omega
    · rw [List.mem_map]
      refine ⟨rowOf i, ?_, ?_⟩
      · rw [lineScan_spec]
        refine ⟨rowOf j, ?_, ⟨h2, ?_, ?_⟩, ?_, ?_⟩
        · simp only [rowOf, GRID_SIZE, TOTAL_CELLS] at *
          omega
        · have d1 : positionToIndex (rowOf j) (colOf j) = j := by
            simp only [positionToIndex, rowOf, colOf, GRID_SIZE] at *; omega
          have d2 : positionToIndex (rowOf j - 1) (colOf j) = j - GRID_SIZE := by
            simp only [positionToIndex, rowOf, colOf, GRID_SIZE] at *; omega
          dsimp only
          rw [d1, d2]; exact e1
        · have d2 : positionToIndex (rowOf j - 1) (colOf j) = j - GRID_SIZE := by
            simp only [positionToIndex, rowOf, colOf, GRID_SIZE] at *; omega
          have d3 : positionToIndex (rowOf j - 2) (colOf j) = j - 2 * GRID_SIZE := by
            simp only [positionToIndex, rowOf, colOf, GRID_SIZE] at *; omega
          dsimp only
          rw [d2, d3]; exact e2
        · simp only [colOf, rowOf, GRID_SIZE] at *; omega
        · simp only [colOf, rowOf, GRID_SIZE] at *; omega
      · simp only [positionToIndex, rowOf, colOf, GRID_SIZE] at *; omega

/-- Reading a full board through the optional view yields the cell. -/
theorem map_some_getD (g : Grid) (i : ℕ) (hi : i < g.length) :
    (g.map some).getD i none = some (g.getD i default) := by
  rw [List.getD_eq_getElem?_getD, List.getElem?_map, List.getD_eq_getElem?_getD,
    List.getElem?_eq_getElem hi]
  rfl

/-- A horizontal three-in-a-row ending at j makes the generator's
wouldCreateMatch check fire at j for j's own color. -/
theorem HTriple_wouldCreateMatch (g : Grid) (j : ℕ) (hlen : g.length = TOTAL_CELLS)
    (hj : j < TOTAL_CELLS) (ht : HTriple g j) :
    wouldCreateMatch (g.map some) j (colorAt g j) = true := by
  obtain ⟨h2, e1, e2⟩ := ht
  unfold wouldCreateMatch
  rw [Bool.or_eq_true]
  left
  rw [Bool.and_eq_true, Bool.and_eq_true]
  refine ⟨decide_eq_true h2, ?_, ?_⟩
  · rw [map_some_getD g (j - 1) (by rw [hlen]; simp only [colOf] at h2; omega)]
    simp only [Option.elim]
    exact decide_eq_true e1.symm
  · rw [map_some_getD g (j - 2) (by rw [hlen]; simp only [colOf] at h2; omega)]
    simp only [Option.elim]
    exact decide_eq_true (e1.trans e2).symm

/-- A vertical three-in-a-row ending at j makes the generator's
wouldCreateMatch check fire at j for j's own color. -/
theorem VTriple_wouldCreateMatch (g : Grid) (j : ℕ) (hlen : g.length = TOTAL_CELLS)
    (hj : j < TOTAL_CELLS) (ht : VTriple g j) :
    wouldCreateMatch (g.map some) j (colorAt g j) = true := by
  obtain ⟨h2, e1, e2⟩ := ht
  unfold wouldCreateMatch
  rw [Bool.or_eq_true]
  right
  rw [Bool.and_eq_true, Bool.and_eq_true]
  refine ⟨decide_eq_true h2, ?_, ?_⟩
  · rw [map_some_getD g (j - GRID_SIZE) (by rw [hlen]; simp only [rowOf] at h2; omega)]
    simp only [Option.elim]
    exact decide_eq_true e1.symm
  · rw [map_some_getD g (j - 2 * GRID_SIZE)
      (by rw [hlen]; simp only [rowOf, GRID_SIZE] at h2 ⊢; omega)]
    simp only [Option.elim]
    exact decide_eq_true (e1.trans e2).symm

/-- When every cell's accepted color passed the generator's avoid
check, the board has no raw-matched cell at all. -/
theorem rawMatched_nil_of_checks (g : Grid) (hlen : g.length = TOTAL_CELLS)
    (hok : ∀ i, i < TOTAL_CELLS → wouldCreateMatch (g.map some) i (colorAt g i) = false) :
    rawMatched g = [] := by
  rw [List.eq_nil_iff_forall_not_mem]
  intro x hx
  rw [rawMatched, List.mem_append] at hx
  rcases hx with hx | hx
  · rw [findHorizontalMatches_spec] at hx
    obtain ⟨j, hj, htrip, _⟩ := hx
    have := HTriple_wouldCreateMatch g j hlen hj htrip
    rw [hok j hj] at this
    cases this
  · rw [findVerticalMatches_spec] at hx
    obtain ⟨j, hj, htrip, _⟩ := hx
    have := VTriple_wouldCreateMatch g j hlen hj htrip
    rw [hok j hj] at this
    cases this

/-- C4 (amended): the settlement invariant.  After every settled
cascade the detector returns the empty set unconditionally; after board
generation it returns the empty set provided every cell's bounded retry
loop found a color passing the wouldCreateMatch check (an adversarial
draw sequence can exhaust the 20-attempt budget, as the counterexample
shows, and obstacle placeholder cells skip the check entirely). -/
theorem c4_settlement_invariant :
    (∀ g : Grid, g.length = TOTAL_CELLS →
      (∀ i, i < TOTAL_CELLS → wouldCreateMatch (g.map some) i (colorAt g i) = false) →
      detectAllMatches g = []) ∧
    (∀ (draws : ℕ → ℕ) (fuel : ℕ) (s : EngineState) (c : ℕ) (s' : EngineState) (n : ℕ),
      processCascadeAux draws fuel s c = some (s', n) →
      detectAllMatches s'.grid = []) := by
  constructor
  · intro g hlen hok
    have hraw := rawMatched_nil_of_checks g hlen hok
    unfold detectAllMatches
    rw [hraw]
    rfl
  · intro draws fuel s c s' n h
    exact (processCascadeAux_spec draws fuel s c s' n h).2.2.1

/-- C4 witness: the cooperative stripe stream generates with every
check passing and a settled board, and the fixture cascade settles to a
board the detector leaves empty. -/
theorem c4_witness :
    detectAllMatches stripeGrid = [] ∧ detectAllMatches c2out.1.grid = [] :=
  ⟨c4_settlement_invariant.1 stripeGrid (by decide) (by decide),
   c4_settlement_invariant.2 wdraws 1 s0 0 c2out.1 c2out.2 (by with_unfolding_all rfl)⟩

/-!
Flood fill correctness: the worklist computes exactly the same-kind
component of its start.
-/

/-- Board neighbors stay on the board. -/
theorem neighborsOf_valid :
    ∀ a, a < TOTAL_CELLS → ∀ b ∈ neighborsOf a, b < TOTAL_CELLS := by decide

/-- Adjacency is symmetric on the board. -/
theorem neighborsOf_symm :
    ∀ a, a < TOTAL_CELLS → ∀ b ∈ neighborsOf a, a ∈ neighborsOf b := by decide

/-- Each cell has at most four neighbors. -/
theorem neighborsOf_length_le :
    ∀ a, a < TOTAL_CELLS → (neighborsOf a).length ≤ 4 := by decide

/-- Marking a fresh on-board cell visited shrinks the unvisited count
by one. -/
theorem unvis_insert (V : List ℕ) (a : ℕ) (ha : a < TOTAL_CELLS) (hnv : a ∉ V) :
    unvis (a :: V) + 1 = unvis V := by
  unfold unvis
  have hset : (Finset.range TOTAL_CELLS).filter (fun x => x ∉ a :: V)
      = ((Finset.range TOTAL_CELLS).filter (fun x => x ∉ V)).erase a := by
    ext x
    simp only [Finset.mem_filter, Finset.mem_erase, Finset.mem_range, List.mem_cons]
    constructor
    · rintro ⟨hx, hnx⟩
      exact ⟨fun he => hnx (Or.inl he), hx, fun hm => hnx (Or.inr hm)⟩
    · rintro ⟨hne, hx, hnx⟩
      exact ⟨hx, fun hm => hm.elim hne hnx⟩
  rw [hset, Finset.card_erase_of_mem]
  · have hmem : a ∈ (Finset.range TOTAL_CELLS).filter (fun x => x ∉ V) := by
      simp only [Finset.mem_filter, Finset.mem_range]
      exact ⟨ha, hnv⟩
    have := Finset.card_pos.mpr ⟨a, hmem⟩
    omega
  · simp only [Finset.mem_filter, Finset.mem_range]
    exact ⟨ha, hnv⟩

/-- Avoidance steps stay avoidance steps when the visited set shrinks. -/
theorem rtg_stepC_mono (g : Grid) (c : ℕ) (V : List ℕ) (cur : ℕ) {q i : ℕ}
    (h : Relation.ReflTransGen (StepC g c (cur :: V)) q i) :
    Relation.ReflTransGen (StepC g c V) q i :=
  Relation.ReflTransGen.mono
    (fun _ _ hs => ⟨hs.1, hs.2.1, fun hm => hs.2.2 (List.mem_cons_of_mem cur hm)⟩) h

/-- A path of color c never visits an off-color cell, so adding one to
the avoided set is harmless. -/
theorem rtg_avoid_offcolor (g : Grid) (c : ℕ) (V : List ℕ) (cur : ℕ)
    (hcur : colorAt g cur ≠ c) {q i : ℕ}
    (h : Relation.ReflTransGen (StepC g c V) q i) :
    Relation.ReflTransGen (StepC g c (cur :: V)) q i := by
  induction h with
  | refl => exact Relation.ReflTransGen.refl
  | tail _ hstep ih =>
      refine ih.tail ⟨hstep.1, hstep.2.1, ?_⟩
      intro hm
      rcases List.mem_cons.mp hm with rfl | hm2
      · exact hcur hstep.2.1
      · exact hstep.2.2 hm2

/-- Splitting a path around one newly visited cell: either the path
avoids it entirely, or its suffix after the last visit starts at one of
the cell's fresh neighbors. -/
theorem rtg_split (g : Grid) (c : ℕ) (V : List ℕ) (cur : ℕ) {q i : ℕ}
    (h : Relation.ReflTransGen (StepC g c V) q i) (hne : i ≠ cur) :
    (q ≠ cur ∧ Relation.ReflTransGen (StepC g c (cur :: V)) q i) ∨
    (∃ n ∈ neighborsOf cur, colorAt g n = c ∧ n ∉ (cur :: V) ∧
      Relation.ReflTransGen (StepC g c (cur :: V)) n i) := by
  induction h using Relation.ReflTransGen.head_induction_on with
  | refl => exact Or.inl ⟨hne, Relation.ReflTransGen.refl⟩
  | head hstep _ ih =>
      rename_i a b _
      rcases ih with ⟨hbne, hp⟩ | hr
      · have hbm : b ∉ cur :: V := by
          intro hm
          rcases List.mem_cons.mp hm with rfl | hm2
          · exact hbne rfl
          · exact hstep.2.2 hm2
        by_cases haq : a = cur
        · subst haq
          exact Or.inr ⟨b, hstep.1, hstep.2.1, hbm, hp⟩
        · exact Or.inl ⟨haq, hp.head ⟨hstep.1, hstep.2.1, hbm⟩⟩
      · exact Or.inr hr

/-- The flood fill worklist invariant: with enough fuel, the output is
exactly the set of cells of the target color reachable from some queue
entry along a path avoiding the visited set. -/
theorem floodFillAux_mem (g : Grid) (c : ℕ) :
    ∀ (fuel : ℕ) (queue visited : List ℕ),
      (∀ q ∈ queue, q < TOTAL_CELLS) →
      5 * unvis visited + queue.length ≤ fuel →
      ∀ i, i ∈ floodFillAux g c fuel queue visited ↔
        ∃ q ∈ queue, PathIn g c visited q i := by
  intro fuel
  induction fuel with
  | zero =>
      intro queue visited hq hfuel i
      have : queue = [] := List.length_eq_zero.mp (by omega)
      subst this
      simp [floodFillAux]
  | succ fuel ih =>
      intro queue visited hq hfuel i
      match queue with
      | [] => simp [floodFillAux]
      | cur :: rest =>
          have hcur64 : cur < TOTAL_CELLS := hq cur (List.mem_cons_self cur rest)
          have hrest : ∀ q ∈ rest, q < TOTAL_CELLS :=
            fun q hqm => hq q (List.mem_cons_of_mem cur hqm)
          simp only [floodFillAux]
          split_ifs with hv hc
          · rw [ih rest visited hrest (by simp only [List.length_cons] at hfuel; omega)]
            constructor
            · rintro ⟨q, hqm, hp⟩
              exact ⟨q, List.mem_cons_of_mem cur hqm, hp⟩
            · rintro ⟨q, hqm, hp⟩
              rcases List.mem_cons.mp hqm with rfl | hq2
              · exact absurd hv hp.1
              · exact ⟨q, hq2, hp⟩
          · have hu := unvis_insert visited cur hcur64 hv
            rw [ih rest (cur :: visited) hrest
              (by simp only [List.length_cons] at hfuel; omega)]
            constructor
            · rintro ⟨q, hqm, hp⟩
              refine ⟨q, List.mem_cons_of_mem cur hqm,
                fun hm => hp.1 (List.mem_cons_of_mem cur hm), hp.2.1,
                rtg_stepC_mono g c visited cur hp.2.2⟩
            · rintro ⟨q, hqm, hp⟩
              rcases List.mem_cons.mp hqm with rfl | hq2
              · exact absurd hp.2.1 hc
              · have hqcur : q ≠ cur := by
                  intro he
                  exact hc (he ▸ hp.2.1)
                refine ⟨q, hq2, ?_, hp.2.1,
                  rtg_avoid_offcolor g c visited cur hc hp.2.2⟩
                intro hm
                rcases List.mem_cons.mp hm with he | hm2
                · exact hqcur he
                · exact hp.1 hm2
          · have hcc : colorAt g cur = c := not_not.mp hc
            have hu := unvis_insert visited cur hcur64 hv
            have hnb : ∀ q ∈ (neighborsOf cur).filter (fun n => n ∉ cur :: visited),
                q < TOTAL_CELLS := by
              intro q hqm
              exact neighborsOf_valid cur hcur64 q (List.mem_of_mem_filter hqm)
            have hnblen : ((neighborsOf cur).filter (fun n => n ∉ cur :: visited)).length ≤ 4 :=
              le_trans (List.length_filter_le _ _) (neighborsOf_length_le cur hcur64)
            rw [List.mem_cons,
              ih (rest ++ (neighborsOf cur).filter (fun n => n ∉ cur :: visited))
                (cur :: visited)
                (by
                  intro q hqm
                  rcases List.mem_append.mp hqm with h1 | h1
                  · exact hrest q h1
                  · exact hnb q h1)
                (by
                  simp only [List.length_append, List.length_cons] at hfuel ⊢
                  omega)]
            constructor
            · rintro (rfl | ⟨q, hqm, hp⟩)
              · exact ⟨i, List.mem_cons_self i rest, hv, hcc, Relation.ReflTransGen.refl⟩
              · rcases List.mem_append.mp hqm with h1 | h1
                · refine ⟨q, List.mem_cons_of_mem cur h1,
                    fun hm => hp.1 (List.mem_cons_of_mem cur hm), hp.2.1,
                    rtg_stepC_mono g c visited cur hp.2.2⟩
                · have hq1 := List.mem_filter.mp h1
                  have hq2 : q ∉ cur :: visited := of_decide_eq_true hq1.2
                  refine ⟨cur, List.mem_cons_self cur rest, hv, hcc, ?_⟩
                  refine Relation.ReflTransGen.head
                    ⟨hq1.1, hp.2.1, fun hm => hq2 (List.mem_cons_of_mem cur hm)⟩
                    (rtg_stepC_mono g c visited cur hp.2.2)
            · rintro ⟨q, hqm, hp⟩
              by_cases hic : i = cur
              · exact Or.inl hic
              · right
                rcases rtg_split g c visited cur hp.2.2 hic with ⟨hqne, hrtg⟩ | hr
                · rcases List.mem_cons.mp hqm with rfl | hq2
                  · exact absurd rfl hqne
                  · refine ⟨q, List.mem_append.mpr (Or.inl hq2), ?_, hp.2.1, hrtg⟩
                    intro hm
                    rcases List.mem_cons.mp hm with he | hm2
                    · exact hqne he
                    · exact hp.1 hm2
                · obtain ⟨n, hn1, hn2, hn3, hrtg⟩ := hr
                  refine ⟨n, List.mem_append.mpr (Or.inr ?_), hn3, hn2, hrtg⟩
                  rw [List.mem_filter]
                  exact ⟨hn1, decide_eq_true hn3⟩

/-- floodFill computes exactly the same-kind 4-connected component of
its start cell. -/
theorem floodFill_mem (g : Grid) (start : ℕ) (hs : start < TOTAL_CELLS) (i : ℕ) :
    i ∈ floodFill g start ↔ SameKindReach g (colorAt g start) start i := by
  unfold floodFill
  have hlen : 5 * unvis ([] : List ℕ) + ([start] : List ℕ).length ≤ 1024 := by
    have h1 : unvis ([] : List ℕ) = 64 := by decide
    simp only [h1, List.length_singleton]
    omega
  rw [floodFillAux_mem g (colorAt g start) 1024 [start] []
    (by
      intro q hqm
      rw [List.mem_singleton] at hqm
      subst hqm
      exact hs)
    hlen]
  constructor
  · rintro ⟨q, hqm, hp⟩
    rw [List.mem_singleton] at hqm
    subst hqm
    exact Relation.ReflTransGen.mono (fun _ _ hs2 => ⟨hs2.1, hs2.2.1⟩) hp.2.2
  · intro h
    refine ⟨start, List.mem_singleton_self start, List.not_mem_nil start, rfl, ?_⟩
    exact Relation.ReflTransGen.mono
      (fun _ _ hs2 => ⟨hs2.1, hs2.2, List.not_mem_nil _⟩) h

/-!
Same-kind reachability is color consistent, stays on the board, and is
symmetric there; two flood fills that share a cell share their starts.
-/

/-- Every cell reached from an on-color start is on-color. -/
theorem reach_color (g : Grid) (c a b : ℕ) (hca : colorAt g a = c)
    (h : SameKindReach g c a b) : colorAt g b = c := by
  induction h with
  | refl => exact hca
  | tail _ hstep _ => exact hstep.2

/-- Every cell reached from an on-board start is on the board. -/
theorem reach_valid (g : Grid) (c a b : ℕ) (ha : a < TOTAL_CELLS)
    (h : SameKindReach g c a b) : b < TOTAL_CELLS := by
  induction h with
  | refl => exact ha
  | tail _ hstep ih => exact neighborsOf_valid _ ih _ hstep.1

/-- Same-kind reachability from an on-board on-color start is
symmetric. -/
theorem reach_symm (g : Grid) (c a b : ℕ) (ha : a < TOTAL_CELLS)
    (hca : colorAt g a = c) (h : SameKindReach g c a b) :
    SameKindReach g c b a := by
  induction h with
  | refl => exact Relation.ReflTransGen.refl
  | tail hmid hstep ih =>
      rename_i m bb
      have hm64 : m < TOTAL_CELLS := reach_valid g c a m ha hmid
      have hmc : colorAt g m = c := reach_color g c a m hca hmid
      exact Relation.ReflTransGen.head ⟨neighborsOf_symm m hm64 bb hstep.1, hmc⟩ ih

/-- Two flood fills meeting at a cell lie in one component: the second
start belongs to the first fill. -/
theorem floodFill_meet (g : Grid) (r1 r2 i : ℕ) (h1 : r1 < TOTAL_CELLS)
    (h2 : r2 < TOTAL_CELLS) (hi1 : i ∈ floodFill g r1) (hi2 : i ∈ floodFill g r2) :
    r2 ∈ floodFill g r1 := by
  rw [floodFill_mem g r1 h1] at hi1 ⊢
  rw [floodFill_mem g r2 h2] at hi2
  have hic1 : colorAt g i = colorAt g r1 := reach_color g _ r1 i rfl hi1
  have hic2 : colorAt g i = colorAt g r2 := reach_color g _ r2 i rfl hi2
  have hcc : colorAt g r2 = colorAt g r1 := by rw [← hic2, hic1]
  rw [hcc] at hi2
  exact Relation.ReflTransGen.trans hi1
    (reach_symm g (colorAt g r1) r2 i h2 hcc hi2)

/-- The right board neighbor of a cell not in the last column. -/
theorem mem_neighbors_right :
    ∀ a, a < TOTAL_CELLS → colOf a < GRID_SIZE - 1 → a + 1 ∈ neighborsOf a := by
  decide

/-- The down board neighbor of a cell not in the last row. -/
theorem mem_neighbors_down :
    ∀ a, a < TOTAL_CELLS → rowOf a < GRID_SIZE - 1 →
      a + GRID_SIZE ∈ neighborsOf a := by
  decide

/-- Raw-matched cells are on the board. -/
theorem rawMatched_lt (g : Grid) : ∀ i ∈ rawMatched g, i < TOTAL_CELLS := by
  intro i hi
  rcases List.mem_append.mp hi with h | h
  · obtain ⟨j, hj, _, _, _, hw2⟩ := (findHorizontalMatches_spec g i).mp h
    have hj' : j < 64 := hj
    omega
  · obtain ⟨j, hj, _, _, _, hw2⟩ := (findVerticalMatches_spec g i).mp h
    have hj' : j < 64 := hj
    omega

/-- A list holding three distinct elements has at least three entries. -/
theorem three_mem_length (l : List ℕ) (a b c : ℕ)
    (ha : a ∈ l) (hb : b ∈ l) (hc : c ∈ l)
    (hab : a ≠ b) (hac : a ≠ c) (hbc : b ≠ c) : 3 ≤ l.length := by
  have h1 : b ∉ ({c} : Finset ℕ) := by
    simp only [Finset.mem_singleton]
    exact hbc
  have h2 : a ∉ ({b, c} : Finset ℕ) := by
    simp only [Finset.mem_insert, Finset.mem_singleton]
    push_neg
    exact ⟨hab, hac⟩
  have hsub : ({a, b, c} : Finset ℕ) ⊆ l.toFinset := by
    intro x hx
    simp only [Finset.mem_insert, Finset.mem_singleton] at hx
    rcases hx with rfl | rfl | rfl
    · exact List.mem_toFinset.mpr ha
    · exact List.mem_toFinset.mpr hb
    · exact List.mem_toFinset.mpr hc
  have hcard : ({a, b, c} : Finset ℕ).card = 3 := by
    rw [Finset.card_insert_of_not_mem h2, Finset.card_insert_of_not_mem h1,
      Finset.card_singleton]
  calc 3 = ({a, b, c} : Finset ℕ).card := hcard.symm
    _ ≤ l.toFinset.card := Finset.card_le_card hsub
    _ ≤ l.length := l.toFinset_card_le

/-- Every group a raw-matched representative seeds keeps at least its
three-in-a-row: the flood fill restricted to raw cells has at least
MIN_MATCH members, so the grouping loop never drops a group. -/
theorem group_size_ge (g : Grid) (rep : ℕ) (hrep : rep ∈ rawMatched g) :
    MIN_MATCH ≤ ((floodFill g rep).filter (· ∈ rawMatched g)).length := by
  have hrep64 : rep < TOTAL_CELLS := rawMatched_lt g rep hrep
  rcases List.mem_append.mp hrep with hh | hv
  · obtain ⟨j, hj64, ⟨h2c, e1, e2⟩, hrow, hw1, hw2⟩ :=
      (findHorizontalMatches_spec g rep).mp hh
    have hj64' : j < 64 := hj64
    have hcj' : 2 ≤ j % 8 := h2c
    have hj2 : 2 ≤ j := by omega
    have hrawx : ∀ x, j - 2 ≤ x → x ≤ j → x ∈ rawMatched g := by
      intro x hx1 hx2
      refine List.mem_append.mpr (Or.inl ?_)
      rw [findHorizontalMatches_spec]
      refine ⟨j, hj64, ⟨h2c, e1, e2⟩, ?_, hx1, hx2⟩
      simp only [rowOf, GRID_SIZE]
      omega
    have hadj1 : j - 1 ∈ neighborsOf (j - 2) := by
      have h := mem_neighbors_right (j - 2) (by simp only [TOTAL_CELLS, GRID_SIZE]; omega)
        (by simp only [colOf, GRID_SIZE]; omega)
      have he : j - 2 + 1 = j - 1 := by omega
      rwa [he] at h
    have hadj2 : j ∈ neighborsOf (j - 1) := by
      have h := mem_neighbors_right (j - 1) (by simp only [TOTAL_CELLS, GRID_SIZE]; omega)
        (by simp only [colOf, GRID_SIZE]; omega)
      have he : j - 1 + 1 = j := by omega
      rwa [he] at h
    have hr1 : SameKindReach g (colorAt g (j - 2)) (j - 2) (j - 1) :=
      Relation.ReflTransGen.single ⟨hadj1, e2⟩
    have hr2 : SameKindReach g (colorAt g (j - 2)) (j - 2) j :=
      Relation.ReflTransGen.tail hr1 ⟨hadj2, e1.trans e2⟩
    have hrepcases : rep = j - 2 ∨ rep = j - 1 ∨ rep = j := by omega
    have hrepr : SameKindReach g (colorAt g (j - 2)) (j - 2) rep := by
      rcases hrepcases with rfl | rfl | rfl
      · exact Relation.ReflTransGen.refl
      · exact hr1
      · exact hr2
    have hback : SameKindReach g (colorAt g (j - 2)) rep (j - 2) :=
      reach_symm g _ (j - 2) rep (by simp only [TOTAL_CELLS, GRID_SIZE]; omega) rfl hrepr
    have hcrepc : colorAt g rep = colorAt g (j - 2) := by
      rcases hrepcases with rfl | rfl | rfl
      · rfl
      · exact e2
      · exact e1.trans e2
    have hmem : ∀ x, x = j - 2 ∨ x = j - 1 ∨ x = j →
        x ∈ (floodFill g rep).filter (· ∈ rawMatched g) := by
      intro x hx
      have hxb1 : j - 2 ≤ x := by omega
      have hxb2 : x ≤ j := by omega
      refine List.mem_filter.mpr ⟨?_, decide_eq_true (hrawx x hxb1 hxb2)⟩
      rw [floodFill_mem g rep hrep64 x, hcrepc]
      rcases hx with rfl | rfl | rfl
      · exact hback
      · exact Relation.ReflTransGen.trans hback hr1
      · exact Relation.ReflTransGen.trans hback hr2
    show 3 ≤ _
    exact three_mem_length _ (j - 2) (j - 1) j
      (hmem (j - 2) (Or.inl rfl)) (hmem (j - 1) (Or.inr (Or.inl rfl)))
      (hmem j (Or.inr (Or.inr rfl)))
      (by omega) (by omega) (by omega)
  · obtain ⟨j, hj64, ⟨h2r, e1, e2⟩, hcol, hw1, hw2⟩ :=
      (findVerticalMatches_spec g rep).mp hv
    have hj64' : j < 64 := hj64
    have hrj' : 2 ≤ j / 8 := h2r
    have hj16 : 16 ≤ j := by omega
    have hw1' : j - 16 ≤ rep := by
      have h := hw1
      simp only [GRID_SIZE] at h
      omega
    have hcol' : rep % 8 = j % 8 := hcol
    have hrawx : ∀ x, x = j - 16 ∨ x = j - 8 ∨ x = j → x ∈ rawMatched g := by
      intro x hx
      refine List.mem_append.mpr (Or.inr ?_)
      rw [findVerticalMatches_spec]
      refine ⟨j, hj64, ⟨h2r, e1, e2⟩, ?_, ?_, ?_⟩
      · simp only [colOf, GRID_SIZE]
        omega
      · simp only [GRID_SIZE]
        omega
      · omega
    have hadj1 : j - 8 ∈ neighborsOf (j - 16) := by
      have h := mem_neighbors_down (j - 16) (by simp only [TOTAL_CELLS, GRID_SIZE]; omega)
        (by simp only [rowOf, GRID_SIZE]; omega)
      have he : j - 16 + GRID_SIZE = j - 8 := by
        simp only [GRID_SIZE]
        omega
      rwa [he] at h
    have hadj2 : j ∈ neighborsOf (j - 8) := by
      have h := mem_neighbors_down (j - 8) (by simp only [TOTAL_CELLS, GRID_SIZE]; omega)
        (by simp only [rowOf, GRID_SIZE]; omega)
      have he : j - 8 + GRID_SIZE = j := by
        simp only [GRID_SIZE]
        omega
      rwa [he] at h
    have he1 : colorAt g j = colorAt g (j - 8) := by
      have h := e1
      simp only [GRID_SIZE] at h
      exact h
    have he2 : colorAt g (j - 8) = colorAt g (j - 16) := by
      have h := e2
      simp only [GRID_SIZE] at h
      have harith : 2 * 8 = 16 := by omega
      rw [harith] at h
      exact h
    have hr1 : SameKindReach g (colorAt g (j - 16)) (j - 16) (j - 8) :=
      Relation.ReflTransGen.single ⟨hadj1, he2⟩
    have hr2 : SameKindReach g (colorAt g (j - 16)) (j - 16) j :=
      Relation.ReflTransGen.tail hr1 ⟨hadj2, he1.trans he2⟩
    have hrepcases : rep = j - 16 ∨ rep = j - 8 ∨ rep = j := by omega
    have hrepr : SameKindReach g (colorAt g (j - 16)) (j - 16) rep := by
      rcases hrepcases with rfl | rfl | rfl
      · exact Relation.ReflTransGen.refl
      · exact hr1
      · exact hr2
    have hback : SameKindReach g (colorAt g (j - 16)) rep (j - 16) :=
      reach_symm g _ (j - 16) rep (by simp only [TOTAL_CELLS, GRID_SIZE]; omega) rfl hrepr
    have hcrepc : colorAt g rep = colorAt g (j - 16) := by
      rcases hrepcases with rfl | rfl | rfl
      · rfl
      · exact he2
      · exact he1.trans he2
    have hmem : ∀ x, x = j - 16 ∨ x = j - 8 ∨ x = j →
        x ∈ (floodFill g rep).filter (· ∈ rawMatched g) := by
      intro x hx
      refine List.mem_filter.mpr ⟨?_, decide_eq_true (hrawx x hx)⟩
      rw [floodFill_mem g rep hrep64 x, hcrepc]
      rcases hx with rfl | rfl | rfl
      · exact hback
      · exact Relation.ReflTransGen.trans hback hr1
      · exact Relation.ReflTransGen.trans hback hr2
    show 3 ≤ _
    exact three_mem_length _ (j - 16) (j - 8) j
      (hmem (j - 16) (Or.inl rfl)) (hmem (j - 8) (Or.inr (Or.inl rfl)))
      (hmem j (Or.inr (Or.inr rfl)))
      (by omega) (by omega) (by omega)

/-- The grouping loop invariant: every emitted group is the raw cells
of one representative's flood fill, every pending raw index ends up in
a group, and groups never share a cell. -/
theorem detectLoop_spec (g : Grid) :
    ∀ (pending processed : List ℕ) (results : List MatchResult),
      (∀ x ∈ pending, x ∈ rawMatched g) →
      (∀ r ∈ results, ∃ rep, rep ∈ rawMatched g ∧
        r.matchedIndices = (floodFill g rep).filter (· ∈ rawMatched g)) →
      (∀ p, p ∈ processed ↔ ∃ r ∈ results, p ∈ r.matchedIndices) →
      (∀ r ∈ results, ∀ s ∈ results, ∀ i,
        i ∈ r.matchedIndices → i ∈ s.matchedIndices → r = s) →
      (∀ r ∈ results, r ∈ detectLoop g (rawMatched g) pending processed results) ∧
      (∀ r ∈ detectLoop g (rawMatched g) pending processed results,
        ∃ rep, rep ∈ rawMatched g ∧
          r.matchedIndices = (floodFill g rep).filter (· ∈ rawMatched g)) ∧
      (∀ i ∈ pending, ∃ r ∈ detectLoop g (rawMatched g) pending processed results,
        i ∈ r.matchedIndices) ∧
      (∀ r ∈ detectLoop g (rawMatched g) pending processed results,
        ∀ s ∈ detectLoop g (rawMatched g) pending processed results, ∀ i,
        i ∈ r.matchedIndices → i ∈ s.matchedIndices → r = s) := by
  intro pending
  induction pending with
  | nil =>
      intro processed results hp hI2 hI3 hI4
      simp only [detectLoop]
      refine ⟨fun r hr => hr, hI2, ?_, hI4⟩
      intro i hi
      exact absurd hi (List.not_mem_nil i)
  | cons idx rest ih =>
      intro processed results hp hI2 hI3 hI4
      have hidxam : idx ∈ rawMatched g := hp idx (List.mem_cons_self idx rest)
      have hrest : ∀ x ∈ rest, x ∈ rawMatched g :=
        fun x hx => hp x (List.mem_cons_of_mem idx hx)
      simp only [detectLoop]
      by_cases hproc : idx ∈ processed
      · rw [if_pos hproc]
        obtain ⟨k0, k1, k2, k3⟩ := ih processed results hrest hI2 hI3 hI4
        refine ⟨k0, k1, ?_, k3⟩
        intro i hi
        rcases List.mem_cons.mp hi with rfl | hi2
        · obtain ⟨r, hr, hmem⟩ := (hI3 i).mp hproc
          exact ⟨r, k0 r hr, hmem⟩
        · exact k2 i hi2
      · rw [if_neg hproc]
        have hgate := group_size_ge g idx hidxam
        have hidx64 : idx < TOTAL_CELLS := rawMatched_lt g idx hidxam
        set mc := (floodFill g idx).filter (· ∈ rawMatched g) with hmc
        rw [if_pos hgate]
        have hIdxFF : idx ∈ mc := by
          rw [hmc]
          refine List.mem_filter.mpr ⟨?_, decide_eq_true hidxam⟩
          rw [floodFill_mem g idx hidx64 idx]
          exact Relation.ReflTransGen.refl
        have hJ2 : ∀ r ∈ results ++ [(⟨mc, mc.length, decide (4 ≤ mc.length)⟩ : MatchResult)],
            ∃ rep, rep ∈ rawMatched g ∧
              r.matchedIndices = (floodFill g rep).filter (· ∈ rawMatched g) := by
          intro r hr
          rcases List.mem_append.mp hr with h | h
          · exact hI2 r h
          · rw [List.mem_singleton] at h
            subst h
            exact ⟨idx, hidxam, hmc⟩
        have hJ3 : ∀ p, p ∈ processed ++ mc ↔
            ∃ r ∈ results ++ [(⟨mc, mc.length, decide (4 ≤ mc.length)⟩ : MatchResult)],
              p ∈ r.matchedIndices := by
          intro p
          rw [List.mem_append]
          constructor
          · rintro (h | h)
            · obtain ⟨r, hr, hm⟩ := (hI3 p).mp h
              exact ⟨r, List.mem_append.mpr (Or.inl hr), hm⟩
            · exact ⟨⟨mc, mc.length, decide (4 ≤ mc.length)⟩,
                List.mem_append.mpr (Or.inr (List.mem_singleton_self _)), h⟩
          · rintro ⟨r, hr, hm⟩
            rcases List.mem_append.mp hr with h | h
            · exact Or.inl ((hI3 p).mpr ⟨r, h, hm⟩)
            · rw [List.mem_singleton] at h
              subst h
              exact Or.inr hm
        have hkey : ∀ r ∈ results, ∀ i, i ∈ r.matchedIndices → i ∈ mc → False := by
          intro r hr i hir himc
          obtain ⟨rep, hrepam, hrmem⟩ := hI2 r hr
          have hrep64 : rep < TOTAL_CELLS := rawMatched_lt g rep hrepam
          have hiff1 : i ∈ floodFill g rep := by
            rw [hrmem] at hir
            exact (List.mem_filter.mp hir).1
          have hiff2 : i ∈ floodFill g idx := by
            rw [hmc] at himc
            exact (List.mem_filter.mp himc).1
          have hidxrep : idx ∈ floodFill g rep :=
            floodFill_meet g rep idx i hrep64 hidx64 hiff1 hiff2
          have hidxmem : idx ∈ r.matchedIndices := by
            rw [hrmem]
            exact List.mem_filter.mpr ⟨hidxrep, decide_eq_true hidxam⟩
          exact hproc ((hI3 idx).mpr ⟨r, hr, hidxmem⟩)
        have hJ4 : ∀ r ∈ results ++ [(⟨mc, mc.length, decide (4 ≤ mc.length)⟩ : MatchResult)],
            ∀ s ∈ results ++ [(⟨mc, mc.length, decide (4 ≤ mc.length)⟩ : MatchResult)],
            ∀ i, i ∈ r.matchedIndices → i ∈ s.matchedIndices → r = s := by
          intro r hr s hs i hir his
          rcases List.mem_append.mp hr with h1 | h1 <;>
            rcases List.mem_append.mp hs with h2 | h2
          · exact hI4 r h1 s h2 i hir his
          · rw [List.mem_singleton] at h2
            subst h2
            exact (hkey r h1 i hir his).elim
          · rw [List.mem_singleton] at h1
            subst h1
            exact (hkey s h2 i his hir).elim
          · rw [List.mem_singleton] at h1
            rw [List.mem_singleton] at h2
            rw [h1, h2]
        obtain ⟨k0, k1, k2, k3⟩ := ih (processed ++ mc)
          (results ++ [(⟨mc, mc.length, decide (4 ≤ mc.length)⟩ : MatchResult)])
          hrest hJ2 hJ3 hJ4
        refine ⟨?_, k1, ?_, k3⟩
        · intro r hr
          exact k0 r (List.mem_append.mpr (Or.inl hr))
        · intro i hi
          rcases List.mem_cons.mp hi with rfl | hi2
          · exact ⟨⟨mc, mc.length, decide (4 ≤ mc.length)⟩,
              k0 _ (List.mem_append.mpr (Or.inr (List.mem_singleton_self _))), hIdxFF⟩
          · exact k2 i hi2

/-- detectAllMatches: every group has a raw representative whose raw
flood fill it equals, every raw index is covered, and groups are
pairwise disjoint. -/
theorem detectAllMatches_spec (g : Grid) :
    (∀ r ∈ detectAllMatches g, ∃ rep, rep ∈ rawMatched g ∧
      r.matchedIndices = (floodFill g rep).filter (· ∈ rawMatched g)) ∧
    (∀ i ∈ rawMatched g, ∃ r ∈ detectAllMatches g, i ∈ r.matchedIndices) ∧
    (∀ r ∈ detectAllMatches g, ∀ s ∈ detectAllMatches g, ∀ i,
      i ∈ r.matchedIndices → i ∈ s.matchedIndices → r = s) := by
  have hun : detectAllMatches g =
      if (rawMatched g).isEmpty then []
      else detectLoop g (rawMatched g) (rawMatched g) [] [] := rfl
  by_cases he : (rawMatched g).isEmpty
  · have hnil : rawMatched g = [] := by
      cases hL : rawMatched g with
      | nil => rfl
      | cons a as =>
          rw [hL, List.isEmpty_cons] at he
          simp at he
    rw [hun, if_pos he]
    refine ⟨fun r hr => absurd hr (List.not_mem_nil r), ?_,
      fun r hr => absurd hr (List.not_mem_nil r)⟩
    intro i hi
    rw [hnil] at hi
    exact absurd hi (List.not_mem_nil i)
  · rw [hun, if_neg he]
    obtain ⟨_, h1, h2, h3⟩ := detectLoop_spec g (rawMatched g) [] []
      (fun x hx => hx)
      (fun r hr => absurd hr (List.not_mem_nil r))
      (fun p => by simp)
      (fun r hr => absurd hr (List.not_mem_nil r))
    exact ⟨h1, h2, h3⟩

/-- C6 (corrected): every detected group is exactly the set of
raw-matched cells of ONE same-kind 4-connected component, where
connectivity ranges over ALL same-kind cells, raw-matched or not — the
flood fill is not restricted to raw-matched cells, so raw regions
bridged by same-kind non-raw cells merge into a single group — and
every raw-matched index belongs to exactly one group. -/
theorem c6_groups_are_components (g : Grid) :
    (∀ r ∈ detectAllMatches g, ∃ rep, rep ∈ rawMatched g ∧
      ∀ i, (i ∈ r.matchedIndices ↔
        (SameKindReach g (colorAt g rep) rep i ∧ i ∈ rawMatched g))) ∧
    (∀ i ∈ rawMatched g, ∃ r, (r ∈ detectAllMatches g ∧ i ∈ r.matchedIndices) ∧
      ∀ s, s ∈ detectAllMatches g → i ∈ s.matchedIndices → s = r) := by
  obtain ⟨h1, h2, h3⟩ := detectAllMatches_spec g
  constructor
  · intro r hr
    obtain ⟨rep, hrep, hmem⟩ := h1 r hr
    refine ⟨rep, hrep, fun i => ?_⟩
    rw [hmem, List.mem_filter, floodFill_mem g rep (rawMatched_lt g rep hrep) i]
    constructor
    · rintro ⟨hreach, hraw⟩
      exact ⟨hreach, of_decide_eq_true hraw⟩
    · rintro ⟨hreach, hraw⟩
      exact ⟨hreach, decide_eq_true hraw⟩
  · intro i hi
    obtain ⟨r, hr, hmem⟩ := h2 i hi
    exact ⟨r, ⟨hr, hmem⟩, fun s hs hsm => h3 s hs r hr i hsm hmem⟩

/-- C6 witness: on the bridge board, raw cell 0 lies in exactly one
detected group. -/
theorem c6_witness :
    ∃ r, (r ∈ detectAllMatches cexGrid ∧ 0 ∈ r.matchedIndices) ∧
      ∀ s, s ∈ detectAllMatches cexGrid → 0 ∈ s.matchedIndices → s = r :=
  (c6_groups_are_components cexGrid).2 0 (by decide)

set_option maxRecDepth 16384 in
/-- C6 counterexample to the raw-restricted reading: on the bridge
board the detector returns a single group holding both three-runs
(cells 0 and 19 together), although the spec's flood fill restricted to
raw-matched same-kind cells never reaches 19 from 0. -/
theorem c6_counterexample :
    0 ∈ rawMatched cexGrid ∧ 19 ∈ rawMatched cexGrid ∧
    (detectAllMatches cexGrid).length = 1 ∧
    (∃ r ∈ detectAllMatches cexGrid, 0 ∈ r.matchedIndices ∧ 19 ∈ r.matchedIndices) ∧
    19 ∉ specRawComponent cexGrid 0 := by
  refine ⟨by decide, by decide, by with_unfolding_all rfl, ?_, by decide⟩
  refine ⟨(detectAllMatches cexGrid).getD 0 ⟨[], 0, false⟩, ?_, ?_, ?_⟩
  · with_unfolding_all decide
  · with_unfolding_all decide
  · with_unfolding_all decide

/-!
Gravity.  The bottom-to-top compacting scan of one column writes the
unmatched cells into the lowest slots preserving their order, and the
trailing null fill clears the vacated top slots.
-/

/-- Reading back the slot a set just wrote. -/
theorem getD_set_self (v : List (Option Element)) (i : ℕ) (a : Option Element)
    (hi : i < v.length) : (v.set i a).getD i none = a := by
  rw [List.getD_eq_getElem?_getD, List.getElem?_set, if_pos rfl, if_pos hi]
  rfl

/-- Reading any other slot after a set. -/
theorem getD_set_ne (v : List (Option Element)) (i j : ℕ) (a : Option Element)
    (hij : i ≠ j) : (v.set i a).getD j none = v.getD j none := by
  rw [List.getD_eq_getElem?_getD, List.getElem?_set, if_neg hij,
    ← List.getD_eq_getElem?_getD]

/-- The null fill never changes the list length. -/
theorem nullFillLoop_length (col : ℕ) :
    ∀ (k : ℕ) (v : List (Option Element)), (nullFillLoop col k v).length = v.length := by
  intro k
  induction k with
  | zero => intro v; rfl
  | succ k ih =>
      intro v
      simp only [nullFillLoop]
      rw [ih, List.length_set]

/-- The null fill leaves every slot outside its target rows alone. -/
theorem nullFillLoop_frame (col : ℕ) :
    ∀ (k : ℕ) (v : List (Option Element)) (j : ℕ),
      (∀ r, r < k → j ≠ positionToIndex r col) →
      (nullFillLoop col k v).getD j none = v.getD j none := by
  intro k
  induction k with
  | zero => intro v j _; rfl
  | succ k ih =>
      intro v j h
      simp only [nullFillLoop]
      rw [ih _ j (fun r hr => h r (Nat.lt_succ_of_lt hr))]
      have hne : positionToIndex k col ≠ j := fun he => h k (Nat.lt_succ_self k) he.symm
      exact getD_set_ne v _ j none hne

/-- The null fill empties each of its target rows. -/
theorem nullFillLoop_clear (col : ℕ) :
    ∀ (k : ℕ) (v : List (Option Element)) (r : ℕ), r < k →
      (nullFillLoop col k v).getD (positionToIndex r col) none = none := by
  intro k
  induction k with
  | zero =>
      intro v r hr
      exact absurd hr (Nat.not_lt_zero r)
  | succ k ih =>
      intro v r hr
      simp only [nullFillLoop]
      by_cases hrk : r < k
      · exact ih _ r hrk
      · have hrk' : r = k := by omega
        subst hrk'
        rw [nullFillLoop_frame col r (v.set (positionToIndex r col) none)
          (positionToIndex r col)
          (fun r' hr' he => by simp only [positionToIndex, GRID_SIZE] at he; omega)]
        rw [List.getD_eq_getElem?_getD, List.getElem?_set, if_pos rfl]
        by_cases hp : positionToIndex r col < v.length
        · rw [if_pos hp]
          rfl
        · rw [if_neg hp]
          rfl

/-- The compacting scan of one column: the final write position drops
by the number of surviving unprocessed cells, slots off the column and
already-final slots above the write position are untouched, and the
slots between the final and the initial write position hold exactly the
survivors of the unprocessed rows in order, reindexed to their new
slots. -/
theorem gravityScanLoop_spec (col : ℕ) (hcol : col < 8) (orig : ℕ → Element)
    (horig : ∀ r, r < 8 → (orig r).index = positionToIndex r col) :
    ∀ (rowsLeft : ℕ) (writePos : ℤ) (v : List (Option Element)),
      rowsLeft ≤ 8 →
      v.length = 64 →
      (rowsLeft : ℤ) - 1 ≤ writePos →
      writePos ≤ 7 →
      (∀ r : ℕ, r < rowsLeft → v.getD (positionToIndex r col) none = some (orig r)) →
      (gravityScanLoop col rowsLeft writePos v).2 =
        writePos -
          ((((List.range rowsLeft).map orig).filter (fun e => !e.isMatched)).length : ℤ) ∧
      (gravityScanLoop col rowsLeft writePos v).1.length = 64 ∧
      (∀ j : ℕ, j % 8 ≠ col →
        (gravityScanLoop col rowsLeft writePos v).1.getD j none = v.getD j none) ∧
      (∀ t : ℕ, writePos < (t : ℤ) →
        (gravityScanLoop col rowsLeft writePos v).1.getD (positionToIndex t col) none =
          v.getD (positionToIndex t col) none) ∧
      (∀ t : ℕ,
        writePos -
          ((((List.range rowsLeft).map orig).filter (fun e => !e.isMatched)).length : ℤ)
            < (t : ℤ) →
        (t : ℤ) ≤ writePos →
        (gravityScanLoop col rowsLeft writePos v).1.getD (positionToIndex t col) none =
          some { (((List.range rowsLeft).map orig).filter (fun e => !e.isMatched)).getD
              (t + (((List.range rowsLeft).map orig).filter (fun e => !e.isMatched)).length
                - 1 - writePos.toNat) default
            with index := positionToIndex t col }) := by
  intro rowsLeft
  induction rowsLeft with
  | zero =>
      intro writePos v h8 hlen hlb hub hv
      refine ⟨?_, hlen, fun j _ => rfl, fun t _ => rfl, ?_⟩
      · simp [gravityScanLoop]
      · intro t h1 h2
        simp only [List.range_zero, List.map_nil, List.filter_nil, List.length_nil,
          Nat.cast_zero, sub_zero] at h1
        omega
  | succ rowsLeft ih =>
      intro writePos v h8 hlen hlb hub hv
      have hv0 : v.getD (positionToIndex rowsLeft col) none = some (orig rowsLeft) :=
        hv rowsLeft (Nat.lt_succ_self rowsLeft)
      have hrl8 : rowsLeft < 8 := by omega
      have hwp0 : (rowsLeft : ℤ) ≤ writePos := by omega
      have hstep : gravityScanLoop col (rowsLeft + 1) writePos v =
          if (orig rowsLeft).isMatched then gravityScanLoop col rowsLeft writePos v
          else
            gravityScanLoop col rowsLeft (writePos - 1)
              (if positionToIndex writePos.toNat col ≠ positionToIndex rowsLeft col then
                (v.set (positionToIndex writePos.toNat col)
                  (some { orig rowsLeft with
                    index := positionToIndex writePos.toNat col })).set
                  (positionToIndex rowsLeft col) none
              else v) := by
        simp only [gravityScanLoop]
        rw [hv0]
      rw [hstep]
      by_cases hm : (orig rowsLeft).isMatched
      · rw [if_pos hm]
        have hSU : ((List.range (rowsLeft + 1)).map orig).filter (fun e => !e.isMatched) =
            ((List.range rowsLeft).map orig).filter (fun e => !e.isMatched) := by
          rw [List.range_succ, List.map_append, List.filter_append]
          simp [hm]
        rw [hSU]
        exact ih writePos v (by omega) hlen (by omega) hub
          (fun r hr => hv r (Nat.lt_succ_of_lt hr))
      · rw [if_neg hm]
        have hm' : (orig rowsLeft).isMatched = false := by
          revert hm
          cases (orig rowsLeft).isMatched <;> simp
        have hSU : ((List.range (rowsLeft + 1)).map orig).filter (fun e => !e.isMatched) =
            ((List.range rowsLeft).map orig).filter (fun e => !e.isMatched) ++
              [orig rowsLeft] := by
          rw [List.range_succ, List.map_append, List.filter_append]
          simp [hm']
        rw [hSU, List.length_append, List.length_singleton]
        by_cases heq : writePos.toNat = rowsLeft
        · rw [if_neg (by rw [heq]; exact not_not_intro rfl)]
          obtain ⟨k1, k2, k3, k4, k5⟩ := ih (writePos - 1) v (by omega) hlen (by omega)
            (by omega) (fun r hr => hv r (Nat.lt_succ_of_lt hr))
          refine ⟨?_, k2, k3, ?_, ?_⟩
          · rw [k1]
            omega
          · intro t ht
            exact k4 t (by omega)
          · intro t h1 h2
            by_cases htw : (t : ℤ) = writePos
            · have htn : t = rowsLeft := by omega
              subst htn
              rw [k4 t (by omega), hv0]
              have hgetD : ((((List.range t).map orig).filter
                    (fun e => !e.isMatched)) ++ [orig t]).getD
                  (t + ((((List.range t).map orig).filter
                    (fun e => !e.isMatched)).length + 1) - 1 - writePos.toNat) default =
                  orig t := by
                have hix : t + ((((List.range t).map orig).filter
                    (fun e => !e.isMatched)).length + 1) - 1 - writePos.toNat =
                    (((List.range t).map orig).filter
                      (fun e => !e.isMatched)).length := by
                  omega
                rw [hix, List.getD_append_right _ _ _ _ (le_refl _), Nat.sub_self]
                rfl
              rw [hgetD, ← horig t hrl8, elem_index_update_self]
            · have htlt : (t : ℤ) < writePos := lt_of_le_of_ne h2 htw
              have h5 := k5 t (by omega) (by omega)
              rw [h5]
              have hix1 : t + (((List.range rowsLeft).map orig).filter
                  (fun e => !e.isMatched)).length - 1 - (writePos - 1).toNat =
                  t + ((((List.range rowsLeft).map orig).filter
                    (fun e => !e.isMatched)).length + 1) - 1 - writePos.toNat := by
                omega
              have hlt : t + ((((List.range rowsLeft).map orig).filter
                  (fun e => !e.isMatched)).length + 1) - 1 - writePos.toNat <
                  (((List.range rowsLeft).map orig).filter (fun e => !e.isMatched)).length := by
                omega
              rw [hix1, List.getD_append _ _ _ _ hlt]
        · have hne : positionToIndex writePos.toNat col ≠ positionToIndex rowsLeft col := by
            simp only [positionToIndex, GRID_SIZE]
            omega
          rw [if_pos hne]
          have hwI64 : positionToIndex writePos.toNat col < 64 := by
            simp only [positionToIndex, GRID_SIZE]
            omega
          have hglen : ((v.set (positionToIndex writePos.toNat col)
              (some { orig rowsLeft with
                index := positionToIndex writePos.toNat col })).set
              (positionToIndex rowsLeft col) none).length = 64 := by
            rw [List.length_set, List.length_set]
            exact hlen
          have hv' : ∀ r, r < rowsLeft →
              ((v.set (positionToIndex writePos.toNat col)
                (some { orig rowsLeft with
                  index := positionToIndex writePos.toNat col })).set
                (positionToIndex rowsLeft col) none).getD (positionToIndex r col) none =
              some (orig r) := by
            intro r hr
            rw [getD_set_ne _ _ _ _ (by simp only [positionToIndex, GRID_SIZE]; omega),
              getD_set_ne _ _ _ _ (by simp only [positionToIndex, GRID_SIZE]; omega)]
            exact hv r (Nat.lt_succ_of_lt hr)
          obtain ⟨k1, k2, k3, k4, k5⟩ := ih (writePos - 1) _ (by omega) hglen (by omega)
            (by omega) hv'
          refine ⟨?_, k2, ?_, ?_, ?_⟩
          · rw [k1]
            omega
          · intro j hj
            rw [k3 j hj,
              getD_set_ne _ _ _ _ (fun he => hj (by
                rw [← he]
                simp only [positionToIndex, GRID_SIZE]
                omega)),
              getD_set_ne _ _ _ _ (fun he => hj (by
                rw [← he]
                simp only [positionToIndex, GRID_SIZE]
                omega))]
          · intro t ht
            rw [k4 t (by omega),
              getD_set_ne _ _ _ _ (by simp only [positionToIndex, GRID_SIZE]; omega),
              getD_set_ne _ _ _ _ (by simp only [positionToIndex, GRID_SIZE]; omega)]
          · intro t h1 h2
            by_cases htw : (t : ℤ) = writePos
            · have htn : t = writePos.toNat := by omega
              subst htn
              rw [k4 writePos.toNat (by omega),
                getD_set_ne _ _ _ _ (Ne.symm hne),
                getD_set_self _ _ _ (by rw [hlen]; exact hwI64)]
              have hgetD : ((((List.range rowsLeft).map orig).filter
                    (fun e => !e.isMatched)) ++ [orig rowsLeft]).getD
                  (writePos.toNat + ((((List.range rowsLeft).map orig).filter
                    (fun e => !e.isMatched)).length + 1) - 1 - writePos.toNat) default =
                  orig rowsLeft := by
                have hix : writePos.toNat + ((((List.range rowsLeft).map orig).filter
                    (fun e => !e.isMatched)).length + 1) - 1 - writePos.toNat =
                    (((List.range rowsLeft).map orig).filter
                      (fun e => !e.isMatched)).length := by
                  omega
                rw [hix, List.getD_append_right _ _ _ _ (le_refl _), Nat.sub_self]
                rfl
              rw [hgetD]
            · have htlt : (t : ℤ) < writePos := lt_of_le_of_ne h2 htw
              have h5 := k5 t (by omega) (by omega)
              rw [h5]
              have hix1 : t + (((List.range rowsLeft).map orig).filter
                  (fun e => !e.isMatched)).length - 1 - (writePos - 1).toNat =
                  t + ((((List.range rowsLeft).map orig).filter
                    (fun e => !e.isMatched)).length + 1) - 1 - writePos.toNat := by
                omega
              have hlt : t + ((((List.range rowsLeft).map orig).filter
                  (fun e => !e.isMatched)).length + 1) - 1 - writePos.toNat <
                  (((List.range rowsLeft).map orig).filter (fun e => !e.isMatched)).length := by
                omega
              rw [hix1, List.getD_append _ _ _ _ hlt]

/-- Processing one full column: unmatched cells land in the bottom
slots in order with refreshed index fields, the vacated top slots are
cleared, and nothing off the column moves. -/
theorem processColumn_spec (col : ℕ) (hcol : col < 8) (orig : ℕ → Element)
    (horig : ∀ r, r < 8 → (orig r).index = positionToIndex r col)
    (v : List (Option Element)) (hlen : v.length = 64)
    (hv : ∀ r, r < 8 → v.getD (positionToIndex r col) none = some (orig r)) :
    (processColumn col v).length = 64 ∧
    (∀ j : ℕ, j % 8 ≠ col → (processColumn col v).getD j none = v.getD j none) ∧
    (∀ t : ℕ, t < 8 →
      t < 8 - (((List.range GRID_SIZE).map orig).filter (fun e => !e.isMatched)).length →
      (processColumn col v).getD (positionToIndex t col) none = none) ∧
    (∀ t : ℕ, t < 8 →
      8 - (((List.range GRID_SIZE).map orig).filter (fun e => !e.isMatched)).length ≤ t →
      (processColumn col v).getD (positionToIndex t col) none =
        some { (((List.range GRID_SIZE).map orig).filter (fun e => !e.isMatched)).getD
            (t - (8 - (((List.range GRID_SIZE).map orig).filter
              (fun e => !e.isMatched)).length)) default
          with index := positionToIndex t col }) := by
  have hm8 : (((List.range GRID_SIZE).map orig).filter (fun e => !e.isMatched)).length ≤ 8 := by
    calc (((List.range GRID_SIZE).map orig).filter (fun e => !e.isMatched)).length
        ≤ ((List.range GRID_SIZE).map orig).length := List.length_filter_le _ _
      _ = 8 := by simp only [List.length_map, List.length_range, GRID_SIZE]
  obtain ⟨k1, k2, k3, k4, k5⟩ := gravityScanLoop_spec col hcol orig horig GRID_SIZE
    ((GRID_SIZE : ℤ) - 1) v (by decide) hlen (le_refl _)
    (by simp only [GRID_SIZE]; omega) hv
  have hpc : processColumn col v = nullFillLoop col
      ((gravityScanLoop col GRID_SIZE ((GRID_SIZE : ℤ) - 1) v).2 + 1).toNat
      (gravityScanLoop col GRID_SIZE ((GRID_SIZE : ℤ) - 1) v).1 := rfl
  have hk : ((gravityScanLoop col GRID_SIZE ((GRID_SIZE : ℤ) - 1) v).2 + 1).toNat =
      8 - (((List.range GRID_SIZE).map orig).filter (fun e => !e.isMatched)).length := by
    rw [k1]
    simp only [GRID_SIZE]
    omega
  refine ⟨?_, ?_, ?_, ?_⟩
  · rw [hpc, nullFillLoop_length]
    exact k2
  · intro j hj
    rw [hpc, hk, nullFillLoop_frame col _ _ j
      (fun r hr he => hj (by rw [he]; simp only [positionToIndex, GRID_SIZE]; omega))]
    exact k3 j hj
  · intro t ht htL
    rw [hpc, hk]
    exact nullFillLoop_clear col _ _ t htL
  · intro t ht htL
    have htL8 : 8 - (((List.range 8).map orig).filter (fun e => !e.isMatched)).length ≤ t :=
      htL
    have hm88 : (((List.range 8).map orig).filter (fun e => !e.isMatched)).length ≤ 8 := hm8
    rw [hpc, hk, nullFillLoop_frame col _ _ (positionToIndex t col)
      (fun r hr he => by simp only [positionToIndex, GRID_SIZE] at he; omega)]
    rw [k5 t (by simp only [GRID_SIZE]; omega) (by simp only [GRID_SIZE]; omega)]
    have hix : t + (((List.range GRID_SIZE).map orig).filter (fun e => !e.isMatched)).length
        - 1 - ((GRID_SIZE : ℤ) - 1).toNat =
        t - (8 - (((List.range GRID_SIZE).map orig).filter
          (fun e => !e.isMatched)).length) := by
      simp only [GRID_SIZE]
      omega
    rw [hix]

/-- Fold one more column off the front of the range. -/
theorem foldl_range_succ {α : Type} (f : α → ℕ → α) (i : α) (n : ℕ) :
    (List.range (n + 1)).foldl f i = f ((List.range n).foldl f i) n := by
  rw [List.range_succ, List.foldl_append]
  rfl

/-- The column fold of applyGravity: after the first c columns are
processed, those columns hold their compacted survivors and the rest of
the board is still the original grid. -/
theorem applyGravity_aux (g : Grid) (hlen : g.length = TOTAL_CELLS)
    (hwf : WellFormedGrid g) :
    ∀ c : ℕ, c ≤ 8 →
      ((List.range c).foldl (fun acc col => processColumn col acc) (g.map some)).length
        = 64 ∧
      (∀ j : ℕ, j < 64 → c ≤ j % 8 →
        ((List.range c).foldl (fun acc col => processColumn col acc) (g.map some)).getD
          j none = some (g.getD j default)) ∧
      (∀ col : ℕ, col < c → ∀ t : ℕ, t < 8 →
        ((List.range c).foldl (fun acc col => processColumn col acc) (g.map some)).getD
            (positionToIndex t col) none =
          if t < 8 - (survivorsOf g col).length then none
          else some { (survivorsOf g col).getD
              (t - (8 - (survivorsOf g col).length)) default
            with index := positionToIndex t col }) := by
  intro c
  induction c with
  | zero =>
      intro _
      refine ⟨?_, ?_, ?_⟩
      · simp only [List.range_zero, List.foldl_nil, List.length_map]
        exact hlen
      · intro j hj _
        simp only [List.range_zero, List.foldl_nil]
        exact map_some_getD g j (by rw [hlen]; exact hj)
      · intro col hcol
        exact absurd hcol (Nat.not_lt_zero col)
  | succ c ih =>
      intro hc8
      obtain ⟨k1, k2, k3⟩ := ih (by omega)
      rw [foldl_range_succ]
      have horig : ∀ r, r < 8 →
          (g.getD (positionToIndex r c) default).index = positionToIndex r c := by
        intro r hr
        exact hwf _ (by simp only [positionToIndex, GRID_SIZE, TOTAL_CELLS]; omega)
      have hv : ∀ r, r < 8 →
          ((List.range c).foldl (fun acc col => processColumn col acc) (g.map some)).getD
            (positionToIndex r c) none = some (g.getD (positionToIndex r c) default) := by
        intro r hr
        refine k2 _ ?_ ?_
        · simp only [positionToIndex, GRID_SIZE]
          omega
        · simp only [positionToIndex, GRID_SIZE]
          omega
      obtain ⟨p1, p2, p3, p4⟩ := processColumn_spec c (by omega)
        (fun r => g.getD (positionToIndex r c) default) horig _ k1 hv
      have hS : ((List.range GRID_SIZE).map
          (fun r => g.getD (positionToIndex r c) default)).filter
          (fun e => !e.isMatched) = survivorsOf g c := rfl
      rw [hS] at p3 p4
      refine ⟨p1, ?_, ?_⟩
      · intro j hj hcj
        rw [p2 j (by omega)]
        exact k2 j hj (by omega)
      · intro col hcol t ht
        by_cases hcc : col = c
        · subst hcc
          by_cases hT : t < 8 - (survivorsOf g col).length
          · rw [if_pos hT]
            exact p3 t ht hT
          · rw [if_neg hT]
            exact p4 t ht (by omega)
        · rw [p2 (positionToIndex t col)
            (by simp only [positionToIndex, GRID_SIZE]; omega)]
          exact k3 col (by omega) t ht

/-- C9: gravity compacts every column independently — the unmatched
cells keep their top-to-bottom order and fill the bottom slots of their
column with their index fields renamed to the new slots, every vacated
slot at the top of the column is null, and matched cells are discarded:
no slot of the result holds a matched element. -/
theorem c9_gravity_compacts (g : Grid) (hlen : g.length = TOTAL_CELLS)
    (hwf : WellFormedGrid g) (col t : ℕ) (hcol : col < GRID_SIZE) (ht : t < GRID_SIZE) :
    ((applyGravity g).getD (positionToIndex t col) none =
      if t < GRID_SIZE - (survivorsOf g col).length then none
      else some { (survivorsOf g col).getD
          (t - (GRID_SIZE - (survivorsOf g col).length)) default
        with index := positionToIndex t col }) ∧
    (∀ e, (applyGravity g).getD (positionToIndex t col) none = some e →
      e.isMatched = false) := by
  obtain ⟨_, _, k3⟩ := applyGravity_aux g hlen hwf 8 (le_refl 8)
  have hcol8 : col < 8 := hcol
  have ht8 : t < 8 := ht
  have hA : applyGravity g =
      (List.range 8).foldl (fun acc col => processColumn col acc) (g.map some) := rfl
  have hmain := k3 col hcol8 t ht8
  have hm8 : (survivorsOf g col).length ≤ 8 := by
    have h1 : (survivorsOf g col).length ≤ (columnCells g col).length :=
      List.length_filter_le _ _
    have h2 : (columnCells g col).length = 8 := by
      unfold columnCells
      simp only [List.length_map, List.length_range, GRID_SIZE]
    omega
  rw [hA]
  refine ⟨hmain, ?_⟩
  intro e he
  rw [hmain] at he
  by_cases hT : t < 8 - (survivorsOf g col).length
  · rw [if_pos hT] at he
    exact absurd he (by simp)
  · rw [if_neg hT] at he
    obtain rfl := Option.some.inj he
    show ((survivorsOf g col).getD (t - (8 - (survivorsOf g col).length)) default).isMatched
      = false
    have hk : t - (8 - (survivorsOf g col).length) < (survivorsOf g col).length := by
      omega
    have hmem : (survivorsOf g col).getD (t - (8 - (survivorsOf g col).length)) default
        ∈ survivorsOf g col := by
      rw [List.getD_eq_getElem?_getD, List.getElem?_eq_getElem hk]
      exact List.getElem_mem hk
    have hfil := List.of_mem_filter hmem
    simpa using hfil

/-- C9 witness: on the fixture board with its bottom run marked, column
3 of the gravity result matches the compaction formula at the bottom
row. -/
theorem c9_witness :
    markedB1.length = TOTAL_CELLS ∧
    (applyGravity markedB1).getD (positionToIndex 7 3) none =
      (if 7 < GRID_SIZE - (survivorsOf markedB1 3).length then none
       else some { (survivorsOf markedB1 3).getD
           (7 - (GRID_SIZE - (survivorsOf markedB1 3).length)) default
         with index := positionToIndex 7 3 }) :=
  ⟨by with_unfolding_all rfl,
    (c9_gravity_compacts markedB1 (by with_unfolding_all rfl)
      (by unfold WellFormedGrid; decide) 3 7 (by decide) (by decide)).1⟩

end MatchBloom
